import Mathlib

/-!
Verification of the tornado_apns client library (src/apns.py).

The development shallowly embeds the pure core of the library:
the big-endian binary codec, the hexadecimal token codec, the payload
JSON encoder (compact separators, UTF-8, non-ASCII kept literal),
the notification frame builder, the feedback stream parser, and
the connection state machine for connect-timeout and read/write
error teardown.  Byte strings are `List Nat` of byte values,
unicode strings are `List Nat` of code points.
-/

/-- Model of `APNs.packed_ushort_big_endian`: `pack('>H', num)`, the
16-bit unsigned big-endian encoding (2 bytes, most significant first).
In Python `pack` raises for `num ≥ 2^16`; theorems restrict to that
domain, the model truncates each byte. -/
def packed_ushort_big_endian (num : Nat) : List Nat :=
  [num / 256 % 256, num % 256]

/-- Model of `APNs.unpacked_ushort_big_endian`: `unpack('>H', bytes)[0]`.
Defined on 2-byte lists; other lengths (a `struct.error` in Python)
return 0. -/
def unpacked_ushort_big_endian : List Nat → Nat
  | [a, b] => a * 256 + b
  | _ => 0

/-- Model of `APNs.packed_uint_big_endian`: `pack('>I', num)`, the
32-bit unsigned big-endian encoding (4 bytes, most significant first). -/
def packed_uint_big_endian (num : Nat) : List Nat :=
  [num / 16777216 % 256, num / 65536 % 256, num / 256 % 256, num % 256]

/-- Model of `APNs.unpacked_uint_big_endian`: `unpack('>I', bytes)[0]`. -/
def unpacked_uint_big_endian : List Nat → Nat
  | [a, b, c, d] => ((a * 256 + b) * 256 + c) * 256 + d
  | _ => 0

/-- Lowercase hexadecimal digit character for a value below 16
(`0123456789abcdef`, as produced by `b2a_hex` and by the `'%04x'`
format used by the JSON control-character escape). -/
def hexDigitChar (n : Nat) : Nat :=
  if n < 10 then 48 + n else 87 + n

/-- Model of `binascii.b2a_hex`: each byte becomes two lowercase hex
digit characters. -/
def b2a_hex : List Nat → List Nat
  | [] => []
  | b :: r => hexDigitChar (b / 16) :: hexDigitChar (b % 16) :: b2a_hex r

/-- Value of a hexadecimal digit character (upper or lower case),
`none` for a non-hex character. -/
def hexVal (c : Nat) : Option Nat :=
  if 48 ≤ c ∧ c ≤ 57 then some (c - 48)
  else if 97 ≤ c ∧ c ≤ 102 then some (c - 87)
  else if 65 ≤ c ∧ c ≤ 70 then some (c - 55)
  else none

/-- Model of `binascii.a2b_hex`: decodes pairs of hex digit characters
into bytes; fails (Python raises `TypeError`) on a string of odd
length or containing a non-hexadecimal character. -/
def a2b_hex : List Nat → Option (List Nat)
  | [] => some []
  | [_] => none
  | c1 :: c2 :: r =>
    match hexVal c1, hexVal c2, a2b_hex r with
    | some h, some l, some bs => some ((h * 16 + l) :: bs)
    | _, _, _ => none

/-- UTF-8 encoding of a single unicode scalar value (1 to 4 bytes). -/
def utf8EncodeChar (c : Nat) : List Nat :=
  if c < 128 then [c]
  else if c < 2048 then [192 + c / 64, 128 + c % 64]
  else if c < 65536 then [224 + c / 4096, 128 + c / 64 % 64, 128 + c % 64]
  else [240 + c / 262144, 128 + c / 4096 % 64, 128 + c / 64 % 64, 128 + c % 64]

/-- UTF-8 encoding of a sequence of code points (Python
`unicode.encode('utf-8')`). -/
def utf8Encode : List Nat → List Nat
  | [] => []
  | c :: r => utf8EncodeChar c ++ utf8Encode r

/-- Fuel-driven UTF-8 decoder; the fuel bounds the number of decoded
characters and only has to exceed the byte count. -/
def utf8DecodeF : Nat → List Nat → Option (List Nat)
  | 0, _ => none
  | _ + 1, [] => some []
  | fuel + 1, b0 :: r =>
    if b0 < 128 then (utf8DecodeF fuel r).map (b0 :: ·)
    else if b0 < 192 then none
    else if b0 < 224 then
      match r with
      | b1 :: r1 =>
        if 128 ≤ b1 ∧ b1 < 192 then
          (utf8DecodeF fuel r1).map (((b0 - 192) * 64 + (b1 - 128)) :: ·)
        else none
      | [] => none
    else if b0 < 240 then
      match r with
      | b1 :: b2 :: r2 =>
        if (128 ≤ b1 ∧ b1 < 192) ∧ (128 ≤ b2 ∧ b2 < 192) then
          (utf8DecodeF fuel r2).map
            (((b0 - 224) * 4096 + (b1 - 128) * 64 + (b2 - 128)) :: ·)
        else none
      | _ => none
    else if b0 < 248 then
      match r with
      | b1 :: b2 :: b3 :: r3 =>
        if (128 ≤ b1 ∧ b1 < 192) ∧ (128 ≤ b2 ∧ b2 < 192) ∧ (128 ≤ b3 ∧ b3 < 192) then
          (utf8DecodeF fuel r3).map
            (((b0 - 240) * 262144 + (b1 - 128) * 4096 + (b2 - 128) * 64 + (b3 - 128)) :: ·)
        else none
      | _ => none
    else none

/-- UTF-8 decoding of a byte sequence into code points. -/
def utf8Decode (bs : List Nat) : Option (List Nat) :=
  utf8DecodeF (bs.length + 1) bs

/- JSON values, as produced by the payload encoder and as read back by
a JSON parser: strings (code-point lists), integers, booleans, null,
arrays and objects (key-value lists in serialization order). -/
mutual
inductive JVal where
  | s (v : List Nat)
  | n (i : Int)
  | b (v : Bool)
  | null
  | arr (elems : JArr)
  | obj (members : JObj)
inductive JArr where
  | nil
  | cons (hd : JVal) (tl : JArr)
inductive JObj where
  | nil
  | cons (k : List Nat) (v : JVal) (tl : JObj)
end

/-- Escape of one character inside a JSON string, following
`json.dumps(..., ensure_ascii=False)`: quote and backslash get
two-character escapes, the five named control characters get their
short escapes, other control characters below 0x20 use the six
character form backslash-u-0-0-hex-hex, and every other character
(ASCII or not) is emitted literally. -/
def escapeChar (c : Nat) : List Nat :=
  if c = 34 then [92, 34]
  else if c = 92 then [92, 92]
  else if c < 32 then
    if c = 8 then [92, 98]
    else if c = 9 then [92, 116]
    else if c = 10 then [92, 110]
    else if c = 12 then [92, 102]
    else if c = 13 then [92, 114]
    else [92, 117, 48, 48, hexDigitChar (c / 16), hexDigitChar (c % 16)]
  else [c]

/-- Escapes every character of a JSON string body. -/
def escapeChars : List Nat → List Nat
  | [] => []
  | c :: r => escapeChar c ++ escapeChars r

/-- Serialization of a JSON string: double quote, escaped body,
double quote. -/
def serStr (s : List Nat) : List Nat := 34 :: escapeChars s ++ [34]

/-- Fuel-driven most-significant-first decimal digit characters of a
positive number; fuel at least the number itself is sufficient. -/
def natToDigitsF : Nat → Nat → List Nat
  | 0, _ => []
  | fuel + 1, n => if n = 0 then [] else natToDigitsF fuel (n / 10) ++ [48 + n % 10]

/-- Decimal digit characters of a natural number (Python `str(n)`). -/
def natToDigits (n : Nat) : List Nat := if n = 0 then [48] else natToDigitsF n n

/-- Serialization of a JSON integer (Python `str(i)` on an int). -/
def serInt (i : Int) : List Nat :=
  if i < 0 then 45 :: natToDigits i.natAbs else natToDigits i.natAbs

/- Compact JSON serialization to code points, following
`json.dumps(d, separators=(',', ':'), ensure_ascii=False)`:
no whitespace, comma between items, colon between key and value. -/
mutual
def serVal : JVal → List Nat
  | .s v => serStr v
  | .n i => serInt i
  | .b true => [116, 114, 117, 101]
  | .b false => [102, 97, 108, 115, 101]
  | .null => [110, 117, 108, 108]
  | .arr es => 91 :: serArr es ++ [93]
  | .obj ms => 123 :: serObj ms ++ [125]
def serArr : JArr → List Nat
  | .nil => []
  | .cons v .nil => serVal v
  | .cons v (.cons v2 tl) => serVal v ++ 44 :: serArr (.cons v2 tl)
def serObj : JObj → List Nat
  | .nil => []
  | .cons k v .nil => serStr k ++ 58 :: serVal v
  | .cons k v (.cons k2 v2 tl) => serStr k ++ 58 :: serVal v ++ 44 :: serObj (.cons k2 v2 tl)
end

/- Well-formedness of a JSON value: every string consists of unicode
code points (below 0x110000), so that UTF-8 encoding decodes back. -/
mutual
def wfVal : JVal → Bool
  | .s v => v.all (· < 1114112)
  | .n _ => true
  | .b _ => true
  | .null => true
  | .arr es => wfArr es
  | .obj ms => wfObj ms
def wfArr : JArr → Bool
  | .nil => true
  | .cons v tl => wfVal v && wfArr tl
def wfObj : JObj → Bool
  | .nil => true
  | .cons k v tl => k.all (· < 1114112) && wfVal v && wfObj tl
end

/-- Lookup of a key in a JSON object (first occurrence). -/
def lookupObj : JObj → List Nat → Option JVal
  | .nil, _ => none
  | .cons k v tl, key => if k = key then some v else lookupObj tl key

/-- Python dict item assignment `d[k] = v`: replaces the value at an
existing key in place, otherwise appends the new entry. -/
def setKeyObj : JObj → List Nat → JVal → JObj
  | .nil, k, v => .cons k v .nil
  | .cons k2 v2 tl, k, v =>
    if k2 = k then .cons k2 v tl else .cons k2 v2 (setKeyObj tl k v)

/-- Python `d.update(other)`: assigns every entry of `other` into `d`. -/
def updateObj : JObj → JObj → JObj
  | base, .nil => base
  | base, .cons k v tl => updateObj (setKeyObj base k v) tl

/-- Keys of a JSON object in order. -/
def keysObj : JObj → List (List Nat)
  | .nil => []
  | .cons k _ tl => k :: keysObj tl

/-- Concatenation of two JSON objects. -/
def objAppend : JObj → JObj → JObj
  | .nil, o => o
  | .cons k v tl, o => .cons k v (objAppend tl o)

/-- A list of strings as a JSON array. -/
def strsToJArr : List (List Nat) → JArr
  | [] => .nil
  | s :: r => .cons (.s s) (strsToJArr r)

/-- Model of the `PayloadAlert` constructor state: body text plus the
optional localization fields, each defaulting to `None`. -/
structure PayloadAlertData where
  body : List Nat
  action_loc_key : Option (List Nat)
  loc_key : Option (List Nat)
  loc_args : Option (List (List Nat))
  launch_image : Option (List Nat)

/-- The `alert` argument of `Payload`: absent (`None`), a plain string,
or a `PayloadAlert` object. -/
inductive AlertField where
  | absent
  | text (s : List Nat)
  | alertObj (a : PayloadAlertData)

/-- Model of the `Payload` constructor state. The custom mapping is an
object merged at the top level; Python iterates its keys in an
unspecified order, determinized here as list order. -/
structure PayloadData where
  alert : AlertField
  badge : Option Int
  sound : Option (List Nat)
  custom : JObj

def bodyKey : List Nat := [98, 111, 100, 121]

def actionLocKeyKey : List Nat := [97, 99, 116, 105, 111, 110, 45, 108, 111, 99, 45, 107, 101, 121]

def locKeyKey : List Nat := [108, 111, 99, 45, 107, 101, 121]

def locArgsKey : List Nat := [108, 111, 99, 45, 97, 114, 103, 115]

def launchImageKey : List Nat := [108, 97, 117, 110, 99, 104, 45, 105, 109, 97, 103, 101]

def alertKey : List Nat := [97, 108, 101, 114, 116]

def soundKey : List Nat := [115, 111, 117, 110, 100]

def badgeKey : List Nat := [98, 97, 100, 103, 101]

def apsKey : List Nat := [97, 112, 115]

/-- One optional string entry of a dict, included only when the Python
value is truthy (not `None` and not the empty string). -/
def optEntry (key : List Nat) (o : Option (List Nat)) : JObj :=
  match o with
  | some s => if s = [] then .nil else .cons key (.s s) .nil
  | none => .nil

/-- The optional `loc-args` entry, included only when the list is
truthy (not `None` and not empty). -/
def optArgsEntry (key : List Nat) (o : Option (List (List Nat))) : JObj :=
  match o with
  | some l => if l = [] then .nil else .cons key (.arr (strsToJArr l)) .nil
  | none => .nil

/-- Model of `PayloadAlert.dict`: always the `body` entry, then each
optional localization field only when truthy, in source order. -/
def alertDict (a : PayloadAlertData) : JObj :=
  objAppend (.cons bodyKey (.s a.body) .nil)
    (objAppend (optEntry actionLocKeyKey a.action_loc_key)
      (objAppend (optEntry locKeyKey a.loc_key)
        (objAppend (optArgsEntry locArgsKey a.loc_args)
          (optEntry launchImageKey a.launch_image))))

/-- The `alert` entry of the aps dictionary: present only when the
alert is truthy; a string serializes directly, a `PayloadAlert`
through its dict. -/
def alertEntry (al : AlertField) : JObj :=
  match al with
  | .absent => .nil
  | .text s => if s = [] then .nil else .cons alertKey (.s s) .nil
  | .alertObj a => .cons alertKey (.obj (alertDict a)) .nil

/-- The `badge` entry of the aps dictionary: present whenever badge is
not `None`, coerced with `int(...)`. -/
def badgeEntry (b : Option Int) : JObj :=
  match b with
  | some bv => JObj.cons badgeKey (.n bv) .nil
  | none => .nil

/-- The inner `aps` dictionary built by `Payload.dict`: `alert` when
truthy, `sound` when truthy, `badge` whenever not `None`, inserted in
source order. -/
def apsObj (d : PayloadData) : JObj :=
  objAppend (alertEntry d.alert)
    (objAppend (optEntry soundKey d.sound) (badgeEntry d.badge))

/-- Model of `Payload.dict`: wraps the aps dictionary under the key
`aps` and then applies `d.update(self.custom)`. -/
def payloadDictObj (d : PayloadData) : JObj :=
  updateObj (.cons apsKey (.obj (apsObj d)) .nil) d.custom

/-- The payload's dictionary form as a JSON value. -/
def payloadDict (d : PayloadData) : JVal := .obj (payloadDictObj d)

/-- Model of `Payload.json`: compact serialization of the dictionary
followed by UTF-8 encoding. -/
def payloadJsonChars (d : PayloadData) : List Nat := serVal (payloadDict d)

def payloadJson (d : PayloadData) : List Nat := utf8Encode (payloadJsonChars d)

def MAX_PAYLOAD_LENGTH : Nat := 256

inductive PayloadErr where
  | payloadTooLarge
deriving DecidableEq

/-- Model of the `Payload` constructor: stores the four fields and then
runs `_check_size`, which raises `PayloadTooLargeError` when the
serialized JSON is longer than `MAX_PAYLOAD_LENGTH` bytes. -/
def mkPayload (alert : AlertField) (badge : Option Int) (sound : Option (List Nat))
    (custom : JObj) : Except PayloadErr PayloadData :=
  let d : PayloadData := ⟨alert, badge, sound, custom⟩
  if MAX_PAYLOAD_LENGTH < (payloadJson d).length then .error .payloadTooLarge
  else .ok d

inductive NotifError where
  | tokenLengthOdd
deriving DecidableEq

/-- The notification frame layout of `GatewayConnection._get_notification`:
command byte 1, identifier (4 bytes BE), expiry (4 bytes BE), token
length (2 bytes BE), token bytes, payload length (2 bytes BE), payload
JSON bytes. -/
def notificationFrame (identifier expiry : Nat) (token_bin payload_json : List Nat) :
    List Nat :=
  1 :: packed_uint_big_endian identifier ++ packed_uint_big_endian expiry ++
    packed_ushort_big_endian token_bin.length ++ token_bin ++
    packed_ushort_big_endian payload_json.length ++ payload_json

/-- Model of `GatewayConnection._get_notification`: hex-decodes the
token (any `TypeError` from `a2b_hex` is re-raised as
`TokenLengthOddError`) and assembles the frame. -/
def getNotification (identifier expiry : Nat) (token_hex : List Nat) (p : PayloadData) :
    Except NotifError (List Nat) :=
  match a2b_hex token_hex with
  | none => .error .tokenLengthOdd
  | some token_bin => .ok (notificationFrame identifier expiry token_bin (payloadJson p))

/-- Byte strings written by `GatewayConnection.send_notification`: the
single frame on success, nothing when `_get_notification` raises. -/
def sendNotificationWrites (identifier expiry : Nat) (token_hex : List Nat)
    (p : PayloadData) : List (List Nat) :=
  match getNotification identifier expiry token_hex p with
  | .ok frame => [frame]
  | .error _ => []

def isDigitChar (c : Nat) : Bool := 48 ≤ c && c ≤ 57

def digitsToNat (ds : List Nat) : Nat := ds.foldl (fun a d => a * 10 + (d - 48)) 0

/-- JSON number parsing (integer subset: optional minus sign and a
nonempty run of decimal digits). -/
def parseNum (s : List Nat) : Option (Int × List Nat) :=
  match s with
  | [] => none
  | c :: s2 =>
    if c = 45 then
      let ds := s2.takeWhile isDigitChar
      if ds = [] then none
      else some (-(digitsToNat ds : Int), s2.dropWhile isDigitChar)
    else
      let ds := (c :: s2).takeWhile isDigitChar
      if ds = [] then none
      else some ((digitsToNat ds : Int), (c :: s2).dropWhile isDigitChar)

/-- Value of a short JSON escape character. -/
def unescapeChar (e : Nat) : Option Nat :=
  if e = 34 then some 34
  else if e = 92 then some 92
  else if e = 47 then some 47
  else if e = 98 then some 8
  else if e = 102 then some 12
  else if e = 110 then some 10
  else if e = 114 then some 13
  else if e = 116 then some 9
  else none

/-- Fuel-driven JSON string body parser, reading until the closing
double quote and undoing escapes; fuel above the character count of
the parsed body is sufficient. -/
def parseStrF : Nat → List Nat → Option (List Nat × List Nat)
  | 0, _ => none
  | fuel + 1, s =>
    match s with
    | [] => none
    | c :: r =>
      if c = 34 then some ([], r)
      else if c = 92 then
        match r with
        | [] => none
        | e :: r2 =>
          if e = 117 then
            match r2 with
            | h1 :: h2 :: h3 :: h4 :: r3 =>
              match hexVal h1, hexVal h2, hexVal h3, hexVal h4 with
              | some d1, some d2, some d3, some d4 =>
                (parseStrF fuel r3).map
                  (fun p => ((d1 * 4096 + d2 * 256 + d3 * 16 + d4) :: p.1, p.2))
              | _, _, _, _ => none
            | _ => none
          else
            match unescapeChar e with
            | some u => (parseStrF fuel r2).map (fun p => (u :: p.1, p.2))
            | none => none
      else (parseStrF fuel r).map (fun p => (c :: p.1, p.2))

/-- JSON string body parser (after the opening double quote). -/
def parseJStr (s : List Nat) : Option (List Nat × List Nat) :=
  parseStrF (s.length + 1) s

/- Recursive-descent JSON parser over code points for the subset the
payload encoder emits (strings, integers, booleans, null, arrays,
objects; compact form without whitespace).  The fuel bounds nesting
and item recursion; input length plus one is always sufficient. -/
mutual
def parseVal : Nat → List Nat → Option (JVal × List Nat)
  | 0, _ => none
  | fuel + 1, s =>
    match s with
    | [] => none
    | c :: s2 =>
      if c = 34 then (parseJStr s2).map (fun p => (JVal.s p.1, p.2))
      else if c = 123 then
        match s2 with
        | [] => none
        | c2 :: r =>
          if c2 = 125 then some (.obj .nil, r)
          else (parseMembers fuel s2).map (fun p => (JVal.obj p.1, p.2))
      else if c = 91 then
        match s2 with
        | [] => none
        | c2 :: r =>
          if c2 = 93 then some (.arr .nil, r)
          else (parseElems fuel s2).map (fun p => (JVal.arr p.1, p.2))
      else if c = 116 then
        match s2 with
        | a1 :: a2 :: a3 :: r =>
          if a1 = 114 ∧ a2 = 117 ∧ a3 = 101 then some (.b true, r) else none
        | _ => none
      else if c = 102 then
        match s2 with
        | a1 :: a2 :: a3 :: a4 :: r =>
          if a1 = 97 ∧ a2 = 108 ∧ a3 = 115 ∧ a4 = 101 then some (.b false, r) else none
        | _ => none
      else if c = 110 then
        match s2 with
        | a1 :: a2 :: a3 :: r =>
          if a1 = 117 ∧ a2 = 108 ∧ a3 = 108 then some (.null, r) else none
        | _ => none
      else if c = 45 ∨ isDigitChar c then
        (parseNum (c :: s2)).map (fun p => (JVal.n p.1, p.2))
      else none
def parseElems : Nat → List Nat → Option (JArr × List Nat)
  | 0, _ => none
  | fuel + 1, s =>
    match parseVal fuel s with
    | none => none
    | some (v, r) =>
      match r with
      | [] => none
      | c :: r2 =>
        if c = 44 then
          match parseElems fuel r2 with
          | none => none
          | some (vs, r3) => some (.cons v vs, r3)
        else if c = 93 then some (.cons v .nil, r2)
        else none
def parseMembers : Nat → List Nat → Option (JObj × List Nat)
  | 0, _ => none
  | fuel + 1, s =>
    match s with
    | [] => none
    | c :: s2 =>
      if c = 34 then
        match parseJStr s2 with
        | none => none
        | some (k, r) =>
          match r with
          | [] => none
          | c2 :: r2 =>
            if c2 = 58 then
              match parseVal fuel r2 with
              | none => none
              | some (v, r3) =>
                match r3 with
                | [] => none
                | c3 :: r4 =>
                  if c3 = 44 then
                    match parseMembers fuel r4 with
                    | none => none
                    | some (ms, r5) => some (.cons k v ms, r5)
                  else if c3 = 125 then some (.cons k v .nil, r4)
                  else none
            else none
      else none
end

/-- Parsing of a complete JSON byte string: UTF-8 decode, then parse
one value consuming the whole input. -/
def jsonParse (bs : List Nat) : Option JVal :=
  match utf8Decode bs with
  | none => none
  | some cs =>
    match parseVal (cs.length + 1) cs with
    | some (v, []) => some v
    | _ => none

/-- Result of `datetime.utcfromtimestamp`: a UTC timestamp wrapper
(the unix-seconds to calendar-date conversion is a bijection and kept
abstract). -/
structure UTCTime where
  seconds : Nat
deriving DecidableEq

def utcfromtimestamp (n : Nat) : UTCTime := ⟨n⟩

/-- One feedback-service record: unix fail time and raw token bytes. -/
structure FeedbackRecord where
  failTime : Nat
  token : List Nat

/-- Wire encoding of one feedback record:
fail_time (4 bytes BE), token_length (2 bytes BE), token bytes. -/
def encodeRecord (r : FeedbackRecord) : List Nat :=
  packed_uint_big_endian r.failTime ++ packed_ushort_big_endian r.token.length ++ r.token

def encodeRecords : List FeedbackRecord → List Nat
  | [] => []
  | r :: rs => encodeRecord r ++ encodeRecords rs

/-- The pair `FeedbackConnection.items` yields for one record. -/
def recordPair (r : FeedbackRecord) : List Nat × UTCTime :=
  (b2a_hex r.token, utcfromtimestamp r.failTime)

/-- Well-formed feedback record: 32-bit time, 16-bit token length, a
nonempty token, byte-valued token content. -/
def wfRecord (r : FeedbackRecord) : Prop :=
  r.failTime < 4294967296 ∧ r.token.length < 65536 ∧ r.token ≠ [] ∧ ∀ b ∈ r.token, b < 256

instance : DecidablePred wfRecord := by
  intro r
  unfold wfRecord
  infer_instance

/-- Fuel-driven inner `while` loop of `FeedbackConnection.items`: while
the buffer holds more than 6 bytes, read the token length at offset
4..6 and, when the full record is buffered, emit its pair and drop the
consumed bytes; fuel at least the buffer length is sufficient since
each iteration consumes at least 6 bytes. -/
def parseBuffF : Nat → List Nat → List (List Nat × UTCTime) × List Nat
  | 0, buff => ([], buff)
  | fuel + 1, buff =>
    if 6 < buff.length then
      let token_length := unpacked_ushort_big_endian ((buff.drop 4).take 2)
      if 6 + token_length ≤ buff.length then
        let fail_time := utcfromtimestamp (unpacked_uint_big_endian (buff.take 4))
        let token := (buff.drop 6).take token_length
        let res := parseBuffF fuel (buff.drop (6 + token_length))
        ((b2a_hex token, fail_time) :: res.1, res.2)
      else ([], buff)
    else ([], buff)

/-- The inner `while` loop of `items` on a buffer: the yielded pairs
and the residual buffer. -/
def parseBuff (buff : List Nat) : List (List Nat × UTCTime) × List Nat :=
  parseBuffF buff.length buff

/-- The `for chunk in self._chunks()` loop body of `items`: append the
chunk, stop on an empty buffer or a buffer shorter than 6 bytes, else
run the inner while loop and continue with the residue. -/
def itemsLoop : List Nat → List (List Nat) → List (List Nat × UTCTime)
  | _, [] => []
  | buff, c :: cs =>
    let b2 := buff ++ c
    if b2.isEmpty then []
    else if b2.length < 6 then []
    else
      let pr := parseBuff b2
      pr.1 ++ itemsLoop pr.2 cs

/-- The chunk sequence `FeedbackConnection._chunks` would yield if its
`self.read(BUF_SIZE)` call returned the socket's chunk bytes: every
chunk up to and including the first empty read.  This is the intended
data path only; the actual call raises `TypeError`, see
`itemsResult`. -/
def chunksYield (cs : List (List Nat)) : List (List Nat) :=
  cs.takeWhile (fun c => !c.isEmpty) ++ [[]]

/-- The buffer-accumulation and record-parsing logic of
`FeedbackConnection.items` run to completion over a given sequence of
socket chunk reads, studied in isolation from the broken read call
(see `itemsResult` for the call path the program actually takes). -/
def itemsRun (cs : List (List Nat)) : List (List Nat × UTCTime) :=
  itemsLoop [] (chunksYield cs)

inductive PyError where
  | typeErr
deriving DecidableEq

/-- Number of arguments `APNsConnection.read` requires beyond `self`:
its signature is `read(self, n, callback)`. -/
def readParamCount : Nat := 2

/-- Number of arguments `FeedbackConnection._chunks` passes to
`self.read`: it calls `self.read(BUF_SIZE)`, only the byte count. -/
def chunksReadArgCount : Nat := 1

/-- Python call semantics for positional arity: calling a function
that requires `req` positional arguments with `given` of them raises
`TypeError` before the body runs; otherwise the call proceeds. -/
def pyCall (req given : Nat) (body : α) : Except PyError α :=
  if given = req then .ok body else .error .typeErr

/-- Model of running the `FeedbackConnection.items` generator: the
`for` loop's first step advances `_chunks`, whose body immediately
calls `self.read(BUF_SIZE)`; `APNsConnection.read` requires `(n,
callback)`, so that call raises `TypeError` before any chunk is
produced, and the error propagates out of `items`.  (Even at the right
arity the tornado `read` returns `None` and delivers data only through
the callback, so the generator could still never yield; the arity
error fires first.) -/
def itemsResult (cs : List (List Nat)) :
    Except PyError (List (List Nat × UTCTime)) :=
  pyCall readParamCount chunksReadArgCount (itemsRun cs)

/-- Chunk splits under which every read leaves at least 6 bytes in the
accumulated buffer (the source's own stated sanity assumption after a
socket read). -/
def goodSplit : List Nat → List (List Nat) → Bool
  | _, [] => true
  | buff, c :: cs =>
    let b2 := buff ++ c
    decide (6 ≤ b2.length) && goodSplit (parseBuff b2).2 cs

/-- Connection state of `APNsConnection`: liveness flag, in-progress
connect flag, whether a socket object exists and is open, and whether
the connect timeout is pending. -/
structure ConnState where
  alive : Bool
  connecting : Bool
  socketOpen : Bool
  timeoutPending : Bool
deriving DecidableEq

def initConnState : ConnState :=
  { alive := false, connecting := false, socketOpen := false, timeoutPending := false }

/-- Model of `APNsConnection._disconnect`: clears the alive flag and
closes the socket if present. -/
def disconnectConn (s : ConnState) : ConnState :=
  { s with alive := false, socketOpen := false }

/-- Model of `APNsConnection.connect`: when no connect is in progress,
set the connecting flag, schedule the 20-unit timeout, create the
socket and begin the asynchronous stream connect. -/
def connectStep (s : ConnState) : ConnState :=
  if s.connecting then s
  else { s with connecting := true, timeoutPending := true, socketOpen := true }

/-- Model of `APNsConnection._connecting_timeout_callback`: when the
connection has not become alive, clear the connecting flag and tear
the socket down; the timer is consumed either way. -/
def timeoutCallback (s : ConnState) : ConnState :=
  if s.alive then { s with timeoutPending := false }
  else disconnectConn { s with connecting := false, timeoutPending := false }

/-- Model of `APNsConnection._on_connected`: removes the pending
timeout, marks alive, clears connecting; the ready callback runs. -/
def onConnectedStep (s : ConnState) : ConnState :=
  { s with alive := true, connecting := false, timeoutPending := false }

/-- Events that can reach a connection during one connect attempt:
the connect timer firing, or the stream connect completing. -/
inductive ConnEvent where
  | timerFires
  | streamConnected
deriving DecidableEq

/-- One event-loop delivery: the resulting state and whether the ready
continuation passed to `connect` was invoked by this event. -/
def stepEvent (s : ConnState) (e : ConnEvent) : ConnState × Bool :=
  match e with
  | .timerFires => (timeoutCallback s, false)
  | .streamConnected => (onConnectedStep s, true)

/-- Run of a sequence of deliveries: final state, and whether the ready
continuation was ever invoked. -/
def runEvents : ConnState → List ConnEvent → ConnState × Bool
  | s, [] => (s, false)
  | s, e :: t =>
    let p := stepEvent s e
    let q := runEvents p.1 t
    (q.1, p.2 || q.2)

/-- Admissible deliveries. Modelled from the spec: the event loop and
TLS stream are external collaborators; the loop delivers the stream's
connected callback only while the attempt's socket is still open
(tearing the socket down aborts the in-flight connect), and fires the
connect timer only while it is scheduled. -/
def admissibleB : ConnState → List ConnEvent → Bool
  | _, [] => true
  | s, e :: t =>
    (match e with
     | .streamConnected => s.socketOpen
     | .timerFires => s.timeoutPending) && admissibleB (stepEvent s e).1 t

/-- Outcome of the underlying tornado stream call inside
`APNsConnection.read`/`write`: success, or an `AttributeError`/`IOError`
carrying a message. -/
inductive IOOutcome where
  | ok
  | raised (msg : List Nat)

/-- Model of `APNsConnection.read`: on a raised stream error the
connection is torn down first and `ConnectionError` is raised carrying
the formatted cause; on success the state is untouched. -/
def connRead (s : ConnState) (outcome : IOOutcome) : ConnState × Option (List Nat) :=
  match outcome with
  | .ok => (s, none)
  | .raised e => (disconnectConn s, some e)

/-- Model of `APNsConnection.write`, identical error handling. -/
def connWrite (s : ConnState) (outcome : IOOutcome) : ConnState × Option (List Nat) :=
  match outcome with
  | .ok => (s, none)
  | .raised e => (disconnectConn s, some e)

/-- The token hex string "a1b2c3d4" of the worked example. -/
def c7TokenHex : List Nat := [97, 49, 98, 50, 99, 51, 100, 52]

/-- The payload of the worked example: alert "hi", nothing else; it
serializes to the 22-byte JSON text with the aps alert object. -/
def c7Payload : PayloadData := ⟨.text [104, 105], none, none, .nil⟩

/-- A payload whose custom mapping carries an entry under the key
"aps" (value null) and an entry under the key "x" (value 1). -/
def c9Payload : PayloadData :=
  ⟨.absent, none, none, .cons apsKey .null (.cons [120] (.n 1) .nil)⟩

/- ------------------------------------------------------------------ -/
/- Theorems.                                                           -/
/- ------------------------------------------------------------------ -/

theorem unpacked_packed_ushort (n : Nat) (h : n < 65536) :
    unpacked_ushort_big_endian (packed_ushort_big_endian n) = n := by
  simp [packed_ushort_big_endian, unpacked_ushort_big_endian]
  omega

theorem unpacked_packed_uint (n : Nat) (h : n < 4294967296) :
    unpacked_uint_big_endian (packed_uint_big_endian n) = n := by
  simp [packed_uint_big_endian, unpacked_uint_big_endian]
  omega

theorem a2b_hex_odd (s : List Nat) (h : s.length % 2 = 1) : a2b_hex s = none := by
  match s with
  | [] => simp at h
  | [_] => simp [a2b_hex]
  | c1 :: c2 :: r =>
    have ih := a2b_hex_odd r (by simp at h; omega)
    simp [a2b_hex, ih]

theorem a2b_hex_even (s : List Nat) (hhex : ∀ c ∈ s, (hexVal c).isSome)
    (h : s.length % 2 = 0) :
    ∃ tb, a2b_hex s = some tb ∧ tb.length = s.length / 2 := by
  match s with
  | [] => exact ⟨[], by simp [a2b_hex]⟩
  | [_] => simp at h
  | c1 :: c2 :: r =>
    obtain ⟨tb, htb, hlen⟩ := a2b_hex_even r
      (fun c hc => hhex c (by simp [hc])) (by simp at h; omega)
    obtain ⟨h1, hh1⟩ := Option.isSome_iff_exists.1 (hhex c1 (by simp))
    obtain ⟨h2, hh2⟩ := Option.isSome_iff_exists.1 (hhex c2 (by simp))
    refine ⟨(h1 * 16 + h2) :: tb, ?_, by simp [hlen]; omega⟩
    simp [a2b_hex, hh1, hh2, htb]

theorem utf8DecodeF_encodeChar (c : Nat) (hc : c < 1114112) (fuel : Nat)
    (rest : List Nat) :
    utf8DecodeF (fuel + 1) (utf8EncodeChar c ++ rest) =
      (utf8DecodeF fuel rest).map (c :: ·) := by
  unfold utf8EncodeChar
  by_cases h1 : c < 128
  · simp only [if_pos h1, List.cons_append, List.nil_append, utf8DecodeF, if_pos h1]
  · by_cases h2 : c < 2048
    · have e1 : ¬ (192 + c / 64 < 128) := by omega
      have e2 : ¬ (192 + c / 64 < 192) := by omega
      have e3 : 192 + c / 64 < 224 := by omega
      simp only [if_neg h1, if_pos h2, List.cons_append, List.nil_append, utf8DecodeF,
        if_neg e1, if_neg e2, if_pos e3]
      have e4 : 128 ≤ 128 + c % 64 ∧ 128 + c % 64 < 192 := by omega
      simp only [if_pos e4]
      have : (192 + c / 64 - 192) * 64 + (128 + c % 64 - 128) = c := by omega
      rw [this]
    · by_cases h3 : c < 65536
      · have e1 : ¬ (224 + c / 4096 < 128) := by omega
        have e2 : ¬ (224 + c / 4096 < 192) := by omega
        have e3 : ¬ (224 + c / 4096 < 224) := by omega
        have e4 : 224 + c / 4096 < 240 := by omega
        simp only [if_neg h1, if_neg h2, if_pos h3, List.cons_append, List.nil_append,
          utf8DecodeF, if_neg e1, if_neg e2, if_neg e3, if_pos e4]
        have e5 : (128 ≤ 128 + c / 64 % 64 ∧ 128 + c / 64 % 64 < 192) ∧
            (128 ≤ 128 + c % 64 ∧ 128 + c % 64 < 192) := by omega
        simp only [if_pos e5]
        have : (224 + c / 4096 - 224) * 4096 + (128 + c / 64 % 64 - 128) * 64 +
            (128 + c % 64 - 128) = c := by omega
        rw [this]
      · have e1 : ¬ (240 + c / 262144 < 128) := by omega
        have e2 : ¬ (240 + c / 262144 < 192) := by omega
        have e3 : ¬ (240 + c / 262144 < 224) := by omega
        have e4 : ¬ (240 + c / 262144 < 240) := by omega
        have e5 : 240 + c / 262144 < 248 := by omega
        simp only [if_neg h1, if_neg h2, if_neg h3, List.cons_append, List.nil_append,
          utf8DecodeF, if_neg e1, if_neg e2, if_neg e3, if_neg e4, if_pos e5]
        have e6 : (128 ≤ 128 + c / 4096 % 64 ∧ 128 + c / 4096 % 64 < 192) ∧
            (128 ≤ 128 + c / 64 % 64 ∧ 128 + c / 64 % 64 < 192) ∧
            (128 ≤ 128 + c % 64 ∧ 128 + c % 64 < 192) := by omega
        simp only [if_pos e6]
        have : (240 + c / 262144 - 240) * 262144 + (128 + c / 4096 % 64 - 128) * 4096 +
            (128 + c / 64 % 64 - 128) * 64 + (128 + c % 64 - 128) = c := by omega
        rw [this]

theorem utf8DecodeF_encode (cs : List Nat) (hwf : ∀ c ∈ cs, c < 1114112) :
    ∀ fuel, cs.length < fuel → utf8DecodeF fuel (utf8Encode cs) = some cs := by
  induction cs with
  | nil =>
    intro fuel hf
    match fuel, hf with
    | fuel + 1, _ => simp [utf8Encode, utf8DecodeF]
  | cons c cs ih =>
    intro fuel hf
    match fuel, hf with
    | fuel + 1, hf =>
      rw [utf8Encode, utf8DecodeF_encodeChar c (hwf c (by simp)) fuel]
      rw [ih (fun x hx => hwf x (by simp [hx])) fuel (by simp at hf; omega)]
      rfl

theorem utf8Encode_length_ge (cs : List Nat) : cs.length ≤ (utf8Encode cs).length := by
  induction cs with
  | nil => simp [utf8Encode]
  | cons c cs ih =>
    rw [utf8Encode]
    have : 1 ≤ (utf8EncodeChar c).length := by
      unfold utf8EncodeChar
      split_ifs <;> simp
    simp only [List.length_append, List.length_cons]
    omega

theorem utf8Decode_encode (cs : List Nat) (hwf : ∀ c ∈ cs, c < 1114112) :
    utf8Decode (utf8Encode cs) = some cs := by
  have := utf8Encode_length_ge cs
  exact utf8DecodeF_encode cs hwf ((utf8Encode cs).length + 1) (by omega)

/-- C8: packing a 16-bit unsigned integer big-endian gives exactly 2
bytes, most significant first, and unpacking inverts it; the 32-bit
pair gives exactly 4 big-endian bytes and inverts likewise.  All four
functions are modelled as pure Lean functions, matching their
side-effect-free Python bodies. -/
theorem c8_codec_roundtrip (n m : Nat) (hn : n < 65536) (hm : m < 4294967296) :
    unpacked_ushort_big_endian (packed_ushort_big_endian n) = n ∧
    (packed_ushort_big_endian n).length = 2 ∧
    packed_ushort_big_endian n = [n / 256, n % 256] ∧
    unpacked_uint_big_endian (packed_uint_big_endian m) = m ∧
    (packed_uint_big_endian m).length = 4 ∧
    packed_uint_big_endian m =
      [m / 16777216, m / 65536 % 256, m / 256 % 256, m % 256] := by
  refine ⟨unpacked_packed_ushort n hn, rfl, ?_, unpacked_packed_uint m hm, rfl, ?_⟩
  · simp [packed_ushort_big_endian]
    omega
  · simp [packed_uint_big_endian]
    omega

theorem c8_codec_roundtrip_witness :
    unpacked_ushort_big_endian (packed_ushort_big_endian 4660) = 4660 ∧
    (packed_ushort_big_endian 4660).length = 2 ∧
    packed_ushort_big_endian 4660 = [4660 / 256, 4660 % 256] ∧
    unpacked_uint_big_endian (packed_uint_big_endian 3735928559) = 3735928559 ∧
    (packed_uint_big_endian 3735928559).length = 4 ∧
    packed_uint_big_endian 3735928559 =
      [3735928559 / 16777216, 3735928559 / 65536 % 256, 3735928559 / 256 % 256,
       3735928559 % 256] :=
  c8_codec_roundtrip 4660 3735928559 (by decide) (by decide)

/-- C1: for a token hex string over hexadecimal digit characters, with
the identifier, expiry and token length in the ranges the `pack` calls
accept, an odd-length token makes `send_notification` raise
`TokenLengthOddError` and write nothing, while an even-length token
makes it write exactly one frame of exactly
1+4+4+2+len(token)+2+len(payload) bytes laid out as command byte 1,
identifier (4 bytes BE), expiry (4 bytes BE), token length (2 bytes
BE), token bytes, payload length (2 bytes BE), payload JSON bytes. -/
theorem c1_send_notification_frame (identifier expiry : Nat) (tok : List Nat)
    (p : PayloadData) (hid : identifier < 4294967296) (hexp : expiry < 4294967296)
    (hhex : ∀ c ∈ tok, (hexVal c).isSome) (htok : tok.length < 131072) :
    (tok.length % 2 = 1 →
      getNotification identifier expiry tok p = .error .tokenLengthOdd ∧
      sendNotificationWrites identifier expiry tok p = []) ∧
    (tok.length % 2 = 0 →
      ∃ tb, a2b_hex tok = some tb ∧ tb.length = tok.length / 2 ∧
        sendNotificationWrites identifier expiry tok p =
          [notificationFrame identifier expiry tb (payloadJson p)] ∧
        (notificationFrame identifier expiry tb (payloadJson p)).length =
          1 + 4 + 4 + 2 + tb.length + 2 + (payloadJson p).length ∧
        notificationFrame identifier expiry tb (payloadJson p) =
          1 :: packed_uint_big_endian identifier ++ packed_uint_big_endian expiry ++
            packed_ushort_big_endian tb.length ++ tb ++
            packed_ushort_big_endian (payloadJson p).length ++ payloadJson p ∧
        unpacked_uint_big_endian (packed_uint_big_endian identifier) = identifier ∧
        unpacked_uint_big_endian (packed_uint_big_endian expiry) = expiry ∧
        unpacked_ushort_big_endian (packed_ushort_big_endian tb.length) = tb.length) := by
  constructor
  · intro hodd
    have hn := a2b_hex_odd tok hodd
    constructor
    · simp [getNotification, hn]
    · simp [sendNotificationWrites, getNotification, hn]
  · intro heven
    obtain ⟨tb, htb, hlen⟩ := a2b_hex_even tok hhex heven
    refine ⟨tb, htb, hlen, ?_, ?_, rfl, unpacked_packed_uint identifier hid,
      unpacked_packed_uint expiry hexp, unpacked_packed_ushort tb.length (by omega)⟩
    · simp [sendNotificationWrites, getNotification, htb]
    · simp [notificationFrame, packed_uint_big_endian, packed_ushort_big_endian]
      omega

theorem c1_send_notification_frame_witness :
    (∃ tb, a2b_hex [97, 49] = some tb ∧ tb.length = ([97, 49] : List Nat).length / 2 ∧
      sendNotificationWrites 1 0 [97, 49] c7Payload =
        [notificationFrame 1 0 tb (payloadJson c7Payload)] ∧
      (notificationFrame 1 0 tb (payloadJson c7Payload)).length =
        1 + 4 + 4 + 2 + tb.length + 2 + (payloadJson c7Payload).length ∧
      notificationFrame 1 0 tb (payloadJson c7Payload) =
        1 :: packed_uint_big_endian 1 ++ packed_uint_big_endian 0 ++
          packed_ushort_big_endian tb.length ++ tb ++
          packed_ushort_big_endian (payloadJson c7Payload).length ++
          payloadJson c7Payload ∧
      unpacked_uint_big_endian (packed_uint_big_endian 1) = 1 ∧
      unpacked_uint_big_endian (packed_uint_big_endian 0) = 0 ∧
      unpacked_ushort_big_endian (packed_ushort_big_endian tb.length) = tb.length) ∧
    getNotification 1 0 [97] c7Payload = .error .tokenLengthOdd ∧
    sendNotificationWrites 1 0 [97] c7Payload = [] := by
  refine ⟨(c1_send_notification_frame 1 0 [97, 49] c7Payload (by decide) (by decide)
    (by decide) (by decide)).2 (by decide), ?_, ?_⟩
  · exact ((c1_send_notification_frame 1 0 [97] c7Payload (by decide) (by decide)
      (by decide) (by decide)).1 (by decide)).1
  · exact ((c1_send_notification_frame 1 0 [97] c7Payload (by decide) (by decide)
      (by decide) (by decide)).1 (by decide)).2

/-- C2: constructing a payload raises `PayloadTooLargeError` exactly
when the compact UTF-8 JSON serialization exceeds 256 bytes; the check
runs once inside the constructor, and a successful construction
returns the payload with exactly the given fields, never a truncated
one. -/
theorem c2_payload_size_check (alert : AlertField) (badge : Option Int)
    (sound : Option (List Nat)) (custom : JObj) :
    (256 < (payloadJson ⟨alert, badge, sound, custom⟩).length ↔
      mkPayload alert badge sound custom = .error .payloadTooLarge) ∧
    ((payloadJson ⟨alert, badge, sound, custom⟩).length ≤ 256 ↔
      mkPayload alert badge sound custom = .ok ⟨alert, badge, sound, custom⟩) := by
  simp only [mkPayload, MAX_PAYLOAD_LENGTH]
  split_ifs with h
  · exact ⟨⟨fun _ => rfl, fun _ => h⟩,
      ⟨fun hle => absurd h (by omega), fun heq => by simp at heq⟩⟩
  · exact ⟨⟨fun hlt => absurd hlt h, fun heq => by simp at heq⟩,
      ⟨fun _ => rfl, fun _ => by omega⟩⟩

/-- C6: a failing stream call inside `read` or `write` first tears the
connection down (alive flag cleared, socket closed) and then raises
`ConnectionError` carrying the underlying cause; a successful call
leaves the state untouched and raises nothing. -/
theorem c6_io_error_teardown (s : ConnState) (e : List Nat) :
    ((connRead s (.raised e)).1.alive = false ∧
     (connRead s (.raised e)).1.socketOpen = false ∧
     (connRead s (.raised e)).2 = some e ∧
     connRead s .ok = (s, none)) ∧
    ((connWrite s (.raised e)).1.alive = false ∧
     (connWrite s (.raised e)).1.socketOpen = false ∧
     (connWrite s (.raised e)).2 = some e ∧
     connWrite s .ok = (s, none)) := by
  simp [connRead, connWrite, disconnectConn]

theorem admissibleB_initConnState (t : List ConnEvent)
    (h : admissibleB initConnState t = true) : t = [] := by
  cases t with
  | nil => rfl
  | cons e t =>
    cases e <;> simp [admissibleB, initConnState] at h

/-- C5: starting a connect attempt and then delivering, under the
event loop's admissible schedules, any events in which the timer fires
before the stream connect completes: the final state is not alive,
the connecting flag is cleared, the socket is torn down, and the ready
continuation passed to `connect` is never invoked. -/
theorem c5_connect_timeout (t1 t2 : List ConnEvent)
    (h1 : ConnEvent.streamConnected ∉ t1)
    (hadm : admissibleB (connectStep initConnState)
      (t1 ++ ConnEvent.timerFires :: t2) = true) :
    (runEvents (connectStep initConnState) (t1 ++ ConnEvent.timerFires :: t2)).1.alive
        = false ∧
    (runEvents (connectStep initConnState)
      (t1 ++ ConnEvent.timerFires :: t2)).1.connecting = false ∧
    (runEvents (connectStep initConnState)
      (t1 ++ ConnEvent.timerFires :: t2)).1.socketOpen = false ∧
    (runEvents (connectStep initConnState) (t1 ++ ConnEvent.timerFires :: t2)).2
        = false := by
  cases t1 with
  | nil =>
    have hstep : (stepEvent (connectStep initConnState) ConnEvent.timerFires).1 =
        initConnState := by decide
    have hadm2 : admissibleB initConnState t2 = true := by
      rw [List.nil_append] at hadm
      simp only [admissibleB] at hadm
      rw [hstep] at hadm
      exact (Bool.and_eq_true_iff.1 hadm).2
    have ht2 := admissibleB_initConnState t2 hadm2
    subst ht2
    decide
  | cons e t1 =>
    cases e with
    | streamConnected => exact absurd (by simp) h1
    | timerFires =>
      exfalso
      simp only [List.cons_append, admissibleB] at hadm
      have hstep : (stepEvent (connectStep initConnState) ConnEvent.timerFires).1 =
          initConnState := by decide
      rw [hstep] at hadm
      have := admissibleB_initConnState _ (Bool.and_eq_true_iff.1 hadm).2
      exact absurd this (by simp)

theorem c5_connect_timeout_witness :
    admissibleB (connectStep initConnState) [ConnEvent.timerFires] = true ∧
    (runEvents (connectStep initConnState) [ConnEvent.timerFires]).1.alive = false ∧
    (runEvents (connectStep initConnState) [ConnEvent.timerFires]).1.connecting
        = false ∧
    (runEvents (connectStep initConnState) [ConnEvent.timerFires]).1.socketOpen
        = false ∧
    (runEvents (connectStep initConnState) [ConnEvent.timerFires]).2 = false := by
  have h := c5_connect_timeout [] [] (by simp) (by decide)
  exact ⟨by decide, h.1, h.2.1, h.2.2.1, h.2.2.2⟩

/-- C7 counterexample: at identifier 1, expiry 0, token "a1b2c3d4" and
the payload serializing to the 22-byte aps-alert-hi JSON, the built
frame carries payload-length field 0x0016, not the claimed 0x0018. -/
theorem c7_counterexample :
    getNotification 1 0 c7TokenHex c7Payload =
      .ok ([1, 0, 0, 0, 1, 0, 0, 0, 0, 0, 4, 161, 178, 195, 212, 0, 22] ++
        payloadJson c7Payload) ∧
    ([1, 0, 0, 0, 1, 0, 0, 0, 0, 0, 4, 161, 178, 195, 212, 0, 22] ++
        payloadJson c7Payload) ≠
      ([1, 0, 0, 0, 1, 0, 0, 0, 0, 0, 4, 161, 178, 195, 212, 0, 24] ++
        payloadJson c7Payload) := by
  exact ⟨rfl, by decide⟩

/-- C7 amended: with identifier 1, expiry 0, token "a1b2c3d4" and the
payload serializing to the aps-alert-hi JSON, the frame is exactly
command byte 01, 00000001, 00000000, 0004, a1b2c3d4, then
payload-length 0x0016 followed by the 22 payload JSON bytes. -/
theorem c7_frame_example :
    getNotification 1 0 c7TokenHex c7Payload =
      .ok ([1, 0, 0, 0, 1, 0, 0, 0, 0, 0, 4, 161, 178, 195, 212, 0, 22] ++
        payloadJson c7Payload) ∧
    payloadJson c7Payload =
      [123, 34, 97, 112, 115, 34, 58, 123, 34, 97, 108, 101, 114, 116, 34, 58,
       34, 104, 105, 34, 125, 125] := by
  exact ⟨rfl, by decide⟩

theorem lookupObj_objAppend (o1 o2 : JObj) (k : List Nat) :
    lookupObj (objAppend o1 o2) k =
      match lookupObj o1 k with
      | some v => some v
      | none => lookupObj o2 k := by
  match o1 with
  | .nil => simp [objAppend, lookupObj]
  | .cons k2 v2 tl =>
    have ih := lookupObj_objAppend tl o2 k
    by_cases h : k2 = k
    · simp [objAppend, lookupObj, h]
    · simp [objAppend, lookupObj, h, ih]

theorem lookupObj_setKeyObj_self (o : JObj) (k : List Nat) (v : JVal) :
    lookupObj (setKeyObj o k v) k = some v := by
  match o with
  | .nil => simp [setKeyObj, lookupObj]
  | .cons k2 v2 tl =>
    have ih := lookupObj_setKeyObj_self tl k v
    by_cases h : k2 = k
    · simp [setKeyObj, lookupObj, h]
    · simp [setKeyObj, lookupObj, h, ih]

theorem lookupObj_setKeyObj_ne (o : JObj) (k k2 : List Nat) (v : JVal)
    (h : k2 ≠ k) : lookupObj (setKeyObj o k v) k2 = lookupObj o k2 := by
  match o with
  | .nil => simp [setKeyObj, lookupObj, Ne.symm h]
  | .cons k3 v3 tl =>
    have ih := lookupObj_setKeyObj_ne tl k k2 v h
    by_cases h3 : k3 = k
    · subst h3
      simp [setKeyObj, lookupObj, Ne.symm h]
    · by_cases h2 : k3 = k2
      · simp [setKeyObj, lookupObj, h3, h2, h]
      · simp [setKeyObj, lookupObj, h3, h2, ih]

theorem lookupObj_eq_none_of_not_mem (o : JObj) (k : List Nat)
    (h : k ∉ keysObj o) : lookupObj o k = none := by
  match o with
  | .nil => simp [lookupObj]
  | .cons k2 v2 tl =>
    simp [keysObj] at h
    have ih := lookupObj_eq_none_of_not_mem tl k h.2
    have hne : k2 ≠ k := fun hh => h.1 hh.symm
    simp [lookupObj, hne, ih]

theorem lookupObj_updateObj (base upd : JObj) (k : List Nat)
    (hnd : (keysObj upd).Nodup) :
    lookupObj (updateObj base upd) k =
      match lookupObj upd k with
      | some v => some v
      | none => lookupObj base k := by
  match upd with
  | .nil => simp [updateObj, lookupObj]
  | .cons k2 v2 tl =>
    simp only [keysObj, List.nodup_cons] at hnd
    have ih := lookupObj_updateObj (setKeyObj base k2 v2) tl k hnd.2
    rw [updateObj, ih]
    by_cases h : k2 = k
    · subst h
      rw [lookupObj_eq_none_of_not_mem tl k2 hnd.1]
      simp [lookupObj, lookupObj_setKeyObj_self]
    · simp only [lookupObj, if_neg h]
      cases lookupObj tl k with
      | some v => rfl
      | none => simp [lookupObj_setKeyObj_ne base k2 k v2 (fun hh => h hh.symm)]

/-- C9: when the custom mapping has an entry under the key aps, the
payload dictionary maps aps to that custom value, silently overwriting
the built aps sub-object; when it has none, the built aps sub-object
survives; and every other custom key appears unchanged at the top
level. -/
theorem c9_custom_aps_overwrites (d : PayloadData)
    (hnd : (keysObj d.custom).Nodup) :
    (∀ v, lookupObj d.custom apsKey = some v →
      lookupObj (payloadDictObj d) apsKey = some v) ∧
    (lookupObj d.custom apsKey = none →
      lookupObj (payloadDictObj d) apsKey = some (.obj (apsObj d))) ∧
    (∀ k v, k ≠ apsKey → lookupObj d.custom k = some v →
      lookupObj (payloadDictObj d) k = some v) := by
  refine ⟨?_, ?_, ?_⟩
  · intro v hv
    rw [payloadDictObj, lookupObj_updateObj _ _ _ hnd, hv]
  · intro hv
    rw [payloadDictObj, lookupObj_updateObj _ _ _ hnd, hv]
    simp [lookupObj]
  · intro k v hk hv
    rw [payloadDictObj, lookupObj_updateObj _ _ _ hnd, hv]

theorem c9_custom_aps_overwrites_witness :
    lookupObj (payloadDictObj c9Payload) apsKey = some JVal.null ∧
    lookupObj (payloadDictObj c9Payload) [120] = some (JVal.n 1) := by
  have h := c9_custom_aps_overwrites c9Payload (by decide)
  exact ⟨h.1 JVal.null rfl, h.2.2 [120] (JVal.n 1) (by decide) rfl⟩

theorem lookupObj_optEntry_self (key : List Nat) (o : Option (List Nat)) :
    lookupObj (optEntry key o) key =
      match o with
      | some s => if s = [] then none else some (JVal.s s)
      | none => none := by
  cases o with
  | none => simp [optEntry, lookupObj]
  | some s =>
    by_cases h : s = []
    · simp [optEntry, lookupObj, h]
    · simp [optEntry, lookupObj, h]

theorem lookupObj_optEntry_ne (k key2 : List Nat) (o : Option (List Nat))
    (h : key2 ≠ k) : lookupObj (optEntry key2 o) k = none := by
  cases o with
  | none => simp [optEntry, lookupObj]
  | some s =>
    by_cases hs : s = []
    · simp [optEntry, lookupObj, hs]
    · simp [optEntry, lookupObj, hs, h]

theorem lookupObj_optArgsEntry_self (key : List Nat) (o : Option (List (List Nat))) :
    lookupObj (optArgsEntry key o) key =
      match o with
      | some l => if l = [] then none else some (JVal.arr (strsToJArr l))
      | none => none := by
  cases o with
  | none => simp [optArgsEntry, lookupObj]
  | some l =>
    by_cases h : l = []
    · simp [optArgsEntry, lookupObj, h]
    · simp [optArgsEntry, lookupObj, h]

theorem lookupObj_optArgsEntry_ne (k key2 : List Nat) (o : Option (List (List Nat)))
    (h : key2 ≠ k) : lookupObj (optArgsEntry key2 o) k = none := by
  cases o with
  | none => simp [optArgsEntry, lookupObj]
  | some l =>
    by_cases hl : l = []
    · simp [optArgsEntry, lookupObj, hl]
    · simp [optArgsEntry, lookupObj, hl, h]

theorem lookupObj_alertEntry_self (al : AlertField) :
    lookupObj (alertEntry al) alertKey =
      (match al with
       | .absent => none
       | .text s => if s = [] then none else some (JVal.s s)
       | .alertObj a2 => some (JVal.obj (alertDict a2))) := by
  cases al with
  | absent => simp [alertEntry, lookupObj]
  | text s => by_cases hs : s = [] <;> simp [alertEntry, lookupObj, hs]
  | alertObj a2 => simp [alertEntry, lookupObj]

theorem lookupObj_alertEntry_ne (k : List Nat) (al : AlertField)
    (h : alertKey ≠ k) : lookupObj (alertEntry al) k = none := by
  cases al with
  | absent => simp [alertEntry, lookupObj]
  | text s => by_cases hs : s = [] <;> simp [alertEntry, lookupObj, hs, h]
  | alertObj a2 => simp [alertEntry, lookupObj, h]

theorem lookupObj_badgeEntry_self (b : Option Int) :
    lookupObj (badgeEntry b) badgeKey = b.map fun bv => JVal.n bv := by
  cases b <;> simp [badgeEntry, lookupObj]

theorem lookupObj_badgeEntry_ne (k : List Nat) (b : Option Int)
    (h : badgeKey ≠ k) : lookupObj (badgeEntry b) k = none := by
  cases b <;> simp [badgeEntry, lookupObj, h]

/-- C10: the aps dictionary contains badge exactly when badge is not
None (badge 0 included, as an integer), while alert and sound appear
only when truthy, so an empty alert or sound string is silently
omitted; and `PayloadAlert.dict` always contains body but drops every
falsy optional localization field. -/
theorem c10_truthiness_omissions (d : PayloadData) (a : PayloadAlertData) :
    lookupObj (apsObj d) badgeKey = (d.badge.map fun bv => JVal.n bv) ∧
    lookupObj (apsObj d) soundKey =
      (match d.sound with
       | some s => if s = [] then none else some (JVal.s s)
       | none => none) ∧
    lookupObj (apsObj d) alertKey =
      (match d.alert with
       | .absent => none
       | .text s => if s = [] then none else some (JVal.s s)
       | .alertObj a2 => some (JVal.obj (alertDict a2))) ∧
    lookupObj (alertDict a) bodyKey = some (JVal.s a.body) ∧
    lookupObj (alertDict a) actionLocKeyKey =
      (match a.action_loc_key with
       | some s => if s = [] then none else some (JVal.s s)
       | none => none) ∧
    lookupObj (alertDict a) locKeyKey =
      (match a.loc_key with
       | some s => if s = [] then none else some (JVal.s s)
       | none => none) ∧
    lookupObj (alertDict a) locArgsKey =
      (match a.loc_args with
       | some l => if l = [] then none else some (JVal.arr (strsToJArr l))
       | none => none) ∧
    lookupObj (alertDict a) launchImageKey =
      (match a.launch_image with
       | some s => if s = [] then none else some (JVal.s s)
       | none => none) := by
  refine ⟨?_, ?_, ?_, ?_, ?_, ?_, ?_, ?_⟩
  · rw [apsObj, lookupObj_objAppend, lookupObj_objAppend,
      lookupObj_alertEntry_ne badgeKey d.alert (by decide),
      lookupObj_optEntry_ne badgeKey soundKey d.sound (by decide),
      lookupObj_badgeEntry_self d.badge]
  · rw [apsObj, lookupObj_objAppend, lookupObj_objAppend,
      lookupObj_alertEntry_ne soundKey d.alert (by decide),
      lookupObj_optEntry_self soundKey d.sound,
      lookupObj_badgeEntry_ne soundKey d.badge (by decide)]
    cases d.sound with
    | none => rfl
    | some s => by_cases hs : s = [] <;> simp [hs]
  · rw [apsObj, lookupObj_objAppend, lookupObj_alertEntry_self d.alert]
    cases d.alert with
    | absent =>
      simp [lookupObj_objAppend, lookupObj_optEntry_ne alertKey soundKey d.sound
        (by decide), lookupObj_badgeEntry_ne alertKey d.badge (by decide)]
    | text s =>
      by_cases hs : s = [] <;>
        simp [hs, lookupObj_objAppend, lookupObj_optEntry_ne alertKey soundKey d.sound
          (by decide), lookupObj_badgeEntry_ne alertKey d.badge (by decide)]
    | alertObj a2 => rfl
  · rw [alertDict, lookupObj_objAppend]
    simp [lookupObj]
  · rw [alertDict, lookupObj_objAppend, lookupObj_objAppend,
      lookupObj_optEntry_self actionLocKeyKey a.action_loc_key]
    rw [show lookupObj (JObj.cons bodyKey (JVal.s a.body) JObj.nil) actionLocKeyKey
        = none by simp [lookupObj, bodyKey, actionLocKeyKey]]
    cases a.action_loc_key with
    | none =>
      simp [lookupObj_objAppend,
        lookupObj_optEntry_ne actionLocKeyKey locKeyKey a.loc_key (by decide),
        lookupObj_optArgsEntry_ne actionLocKeyKey locArgsKey a.loc_args (by decide),
        lookupObj_optEntry_ne actionLocKeyKey launchImageKey a.launch_image (by decide)]
    | some s =>
      by_cases hs : s = [] <;>
        simp [hs, lookupObj_objAppend,
          lookupObj_optEntry_ne actionLocKeyKey locKeyKey a.loc_key (by decide),
          lookupObj_optArgsEntry_ne actionLocKeyKey locArgsKey a.loc_args (by decide),
          lookupObj_optEntry_ne actionLocKeyKey launchImageKey a.launch_image (by decide)]
  · rw [alertDict, lookupObj_objAppend, lookupObj_objAppend, lookupObj_objAppend,
      lookupObj_optEntry_ne locKeyKey actionLocKeyKey a.action_loc_key (by decide),
      lookupObj_optEntry_self locKeyKey a.loc_key]
    rw [show lookupObj (JObj.cons bodyKey (JVal.s a.body) JObj.nil) locKeyKey
        = none by simp [lookupObj, bodyKey, locKeyKey]]
    cases a.loc_key with
    | none =>
      simp [lookupObj_objAppend,
        lookupObj_optArgsEntry_ne locKeyKey locArgsKey a.loc_args (by decide),
        lookupObj_optEntry_ne locKeyKey launchImageKey a.launch_image (by decide)]
    | some s =>
      by_cases hs : s = [] <;>
        simp [hs, lookupObj_objAppend,
          lookupObj_optArgsEntry_ne locKeyKey locArgsKey a.loc_args (by decide),
          lookupObj_optEntry_ne locKeyKey launchImageKey a.launch_image (by decide)]
  · rw [alertDict, lookupObj_objAppend, lookupObj_objAppend, lookupObj_objAppend,
      lookupObj_objAppend,
      lookupObj_optEntry_ne locArgsKey actionLocKeyKey a.action_loc_key (by decide),
      lookupObj_optEntry_ne locArgsKey locKeyKey a.loc_key (by decide),
      lookupObj_optArgsEntry_self locArgsKey a.loc_args]
    rw [show lookupObj (JObj.cons bodyKey (JVal.s a.body) JObj.nil) locArgsKey
        = none by simp [lookupObj, bodyKey, locArgsKey]]
    cases a.loc_args with
    | none =>
      simp [lookupObj_optEntry_ne locArgsKey launchImageKey a.launch_image (by decide)]
    | some l =>
      by_cases hl : l = [] <;>
        simp [hl,
          lookupObj_optEntry_ne locArgsKey launchImageKey a.launch_image (by decide)]
  · rw [alertDict, lookupObj_objAppend, lookupObj_objAppend, lookupObj_objAppend,
      lookupObj_objAppend,
      lookupObj_optEntry_ne launchImageKey actionLocKeyKey a.action_loc_key (by decide),
      lookupObj_optEntry_ne launchImageKey locKeyKey a.loc_key (by decide),
      lookupObj_optArgsEntry_ne launchImageKey locArgsKey a.loc_args (by decide),
      lookupObj_optEntry_self launchImageKey a.launch_image]
    rw [show lookupObj (JObj.cons bodyKey (JVal.s a.body) JObj.nil) launchImageKey
        = none by simp [lookupObj, bodyKey, launchImageKey]]

theorem natToDigitsF_digits (fuel n : Nat) :
    ∀ c ∈ natToDigitsF fuel n, 48 ≤ c ∧ c ≤ 57 := by
  induction fuel generalizing n with
  | zero => simp [natToDigitsF]
  | succ fuel ih =>
    intro c hc
    rw [natToDigitsF] at hc
    by_cases h : n = 0
    · simp [h] at hc
    · rw [if_neg h] at hc
      rcases List.mem_append.1 hc with h1 | h2
      · exact ih (n / 10) c h1
      · simp at h2
        omega

theorem natToDigitsF_ne_nil (fuel n : Nat) (hn : 0 < n) (hf : 0 < fuel) :
    natToDigitsF fuel n ≠ [] := by
  match fuel, hf with
  | fuel + 1, _ =>
    rw [natToDigitsF, if_neg (by omega)]
    simp

theorem natToDigitsF_foldl (fuel : Nat) :
    ∀ n a, n ≤ fuel →
      List.foldl (fun a d => a * 10 + (d - 48)) a (natToDigitsF fuel n) =
        a * 10 ^ (natToDigitsF fuel n).length + n := by
  induction fuel with
  | zero =>
    intro n a hn
    simp [natToDigitsF]
    omega
  | succ fuel ih =>
    intro n a hn
    rw [natToDigitsF]
    by_cases h : n = 0
    · simp [h]
    · rw [if_neg h]
      rw [List.foldl_append, ih (n / 10) a (by omega)]
      simp only [List.foldl_cons, List.foldl_nil, List.length_append,
        List.length_cons, List.length_nil]
      have h10 : 10 ^ ((natToDigitsF fuel (n / 10)).length + (0 + 1)) =
          10 ^ (natToDigitsF fuel (n / 10)).length * 10 := by
        rw [Nat.zero_add, pow_succ]
      rw [h10]
      have : 48 + n % 10 - 48 = n % 10 := by omega
      rw [this]
      have hmod := Nat.div_add_mod n 10
      ring_nf
      omega

theorem digitsToNat_natToDigits (n : Nat) : digitsToNat (natToDigits n) = n := by
  rw [natToDigits]
  by_cases h : n = 0
  · simp [h, digitsToNat]
  · rw [if_neg h, digitsToNat, natToDigitsF_foldl n n 0 (le_refl n)]
    simp

theorem natToDigits_digits (n : Nat) : ∀ c ∈ natToDigits n, 48 ≤ c ∧ c ≤ 57 := by
  rw [natToDigits]
  by_cases h : n = 0
  · simp [h]
  · rw [if_neg h]
    exact natToDigitsF_digits n n

theorem natToDigits_ne_nil (n : Nat) : natToDigits n ≠ [] := by
  rw [natToDigits]
  by_cases h : n = 0
  · simp [h]
  · rw [if_neg h]
    exact natToDigitsF_ne_nil n n (by omega) (by omega)

theorem takeWhile_append_all (p : Nat → Bool) (l1 l2 : List Nat)
    (h1 : ∀ x ∈ l1, p x = true) (h2 : ∀ y, l2.head? = some y → p y = false) :
    (l1 ++ l2).takeWhile p = l1 ∧ (l1 ++ l2).dropWhile p = l2 := by
  induction l1 with
  | nil =>
    cases l2 with
    | nil => simp
    | cons y t =>
      have := h2 y (by simp)
      simp [List.takeWhile, List.dropWhile, this]
  | cons x l1 ih =>
    have hx := h1 x (by simp)
    have := ih (fun z hz => h1 z (by simp [hz]))
    simp [List.takeWhile, List.dropWhile, hx, this.1, this.2]

theorem serInt_head (i : Int) :
    ∃ c t, serInt i = c :: t ∧ (c = 45 ∨ (48 ≤ c ∧ c ≤ 57)) := by
  rw [serInt]
  by_cases h : i < 0
  · exact ⟨45, natToDigits i.natAbs, by rw [if_pos h], Or.inl rfl⟩
  · rw [if_neg h]
    obtain ⟨c, t, hct⟩ := List.exists_cons_of_ne_nil (natToDigits_ne_nil i.natAbs)
    refine ⟨c, t, hct, Or.inr ?_⟩
    exact natToDigits_digits i.natAbs c (by rw [hct]; simp)

theorem parseNum_serInt (i : Int) (rest : List Nat)
    (hrest : ∀ y, rest.head? = some y → isDigitChar y = false) :
    parseNum (serInt i ++ rest) = some (i, rest) := by
  have hdig : ∀ x ∈ natToDigits i.natAbs, isDigitChar x = true := by
    intro x hx
    have := natToDigits_digits i.natAbs x hx
    simp [isDigitChar]
    omega
  have hsplit := takeWhile_append_all isDigitChar (natToDigits i.natAbs) rest hdig hrest
  by_cases h : i < 0
  · rw [serInt, if_pos h]
    obtain ⟨c, t, hct⟩ := List.exists_cons_of_ne_nil (natToDigits_ne_nil i.natAbs)
    rw [List.cons_append, parseNum]
    simp only [if_pos rfl]
    rw [hsplit.1, hsplit.2, if_neg (natToDigits_ne_nil i.natAbs)]
    have hval : digitsToNat (natToDigits i.natAbs) = i.natAbs :=
      digitsToNat_natToDigits i.natAbs
    rw [hval]
    have : -(i.natAbs : Int) = i := by omega
    rw [this]
    simp
  · rw [serInt, if_neg h]
    obtain ⟨c, t, hct⟩ := List.exists_cons_of_ne_nil (natToDigits_ne_nil i.natAbs)
    have hc := natToDigits_digits i.natAbs c (by rw [hct]; simp)
    rw [hct, List.cons_append, parseNum]
    rw [if_neg (by omega)]
    rw [show c :: (t ++ rest) = (c :: t) ++ rest by simp, ← hct]
    rw [hsplit.1, hsplit.2, if_neg (natToDigits_ne_nil i.natAbs)]
    have hval : digitsToNat (natToDigits i.natAbs) = i.natAbs :=
      digitsToNat_natToDigits i.natAbs
    rw [hval]
    have : ((i.natAbs : Nat) : Int) = i := by omega
    rw [this]

theorem hexVal_hexDigitChar (n : Nat) (h : n < 16) :
    hexVal (hexDigitChar n) = some n := by
  rw [hexDigitChar, hexVal]
  by_cases h10 : n < 10
  · rw [if_pos h10, if_pos (by omega)]
    simp
  · rw [if_neg h10, if_neg (by omega), if_pos (by omega)]
    simp

theorem escapeChars_length_ge (s : List Nat) : s.length ≤ (escapeChars s).length := by
  induction s with
  | nil => simp [escapeChars]
  | cons c s ih =>
    rw [escapeChars]
    have : 1 ≤ (escapeChar c).length := by
      rw [escapeChar]
      split_ifs <;> simp
    simp only [List.length_append, List.length_cons]
    omega

theorem parseStrF_escape (s rest : List Nat) :
    ∀ fuel, s.length < fuel →
      parseStrF fuel (escapeChars s ++ 34 :: rest) = some (s, rest) := by
  induction s with
  | nil =>
    intro fuel hf
    match fuel, hf with
    | fuel + 1, _ => simp [escapeChars, parseStrF]
  | cons c s ih =>
    intro fuel hf
    match fuel, hf with
    | fuel + 1, hf =>
      have ihf := ih fuel (by simp at hf; omega)
      rw [escapeChars, List.append_assoc]
      by_cases h34 : c = 34
      · subst h34
        rw [escapeChar, if_pos rfl]
        simp [parseStrF, unescapeChar, ihf]
      · by_cases h92 : c = 92
        · subst h92
          rw [escapeChar, if_neg (by omega), if_pos rfl]
          simp [parseStrF, unescapeChar, ihf]
        · by_cases h32 : c < 32
          · by_cases h8 : c = 8
            · subst h8
              rw [escapeChar]
              simp [parseStrF, unescapeChar, ihf]
            · by_cases h9 : c = 9
              · subst h9
                rw [escapeChar]
                simp [parseStrF, unescapeChar, ihf]
              · by_cases h10 : c = 10
                · subst h10
                  rw [escapeChar]
                  simp [parseStrF, unescapeChar, ihf]
                · by_cases h12 : c = 12
                  · subst h12
                    rw [escapeChar]
                    simp [parseStrF, unescapeChar, ihf]
                  · by_cases h13 : c = 13
                    · subst h13
                      rw [escapeChar]
                      simp [parseStrF, unescapeChar, ihf]
                    · rw [escapeChar, if_neg h34, if_neg h92, if_pos h32, if_neg h8,
                        if_neg h9, if_neg h10, if_neg h12, if_neg h13]
                      simp only [List.cons_append, List.nil_append]
                      rw [parseStrF]
                      simp only [if_neg (by omega : ¬ (92 : Nat) = 34), if_pos rfl,
                        if_pos (rfl : (117 : Nat) = 117)]
                      rw [show hexVal 48 = some 0 by decide,
                        hexVal_hexDigitChar (c / 16) (by omega),
                        hexVal_hexDigitChar (c % 16) (by omega)]
                      simp only [ihf, Option.map_some]
                      have hval : 0 * 4096 + 0 * 256 + c / 16 * 16 + c % 16 = c := by
                        omega
                      rw [hval]
                      simp
          · rw [escapeChar, if_neg h34, if_neg h92, if_neg h32]
            simp [parseStrF, h34, h92, ihf]

theorem parseJStr_escape (s rest : List Nat) :
    parseJStr (escapeChars s ++ 34 :: rest) = some (s, rest) := by
  have h1 := escapeChars_length_ge s
  apply parseStrF_escape
  simp only [List.length_append, List.length_cons]
  omega

theorem serVal_s_eq (str : List Nat) :
    serVal (JVal.s str) = 34 :: (escapeChars str ++ [34]) := by
  simp [serVal, serStr]

theorem serVal_n_eq (i : Int) : serVal (JVal.n i) = serInt i := by
  simp [serVal]

theorem serVal_arr_eq (es : JArr) : serVal (JVal.arr es) = 91 :: serArr es ++ [93] := by
  simp [serVal]

theorem serVal_obj_eq (ms : JObj) : serVal (JVal.obj ms) = 123 :: serObj ms ++ [125] := by
  simp [serVal]

theorem serArr_cons_nil_eq (v : JVal) : serArr (JArr.cons v JArr.nil) = serVal v := by
  simp [serArr]

theorem serArr_cons_cons_eq (v v2 : JVal) (tl : JArr) :
    serArr (JArr.cons v (JArr.cons v2 tl)) =
      serVal v ++ 44 :: serArr (JArr.cons v2 tl) := by
  simp [serArr]

theorem serObj_cons_nil_eq (k : List Nat) (v : JVal) :
    serObj (JObj.cons k v JObj.nil) = serStr k ++ 58 :: serVal v := by
  simp [serObj]

theorem serObj_cons_cons_eq (k : List Nat) (v : JVal) (k2 : List Nat) (v2 : JVal)
    (tl : JObj) :
    serObj (JObj.cons k v (JObj.cons k2 v2 tl)) =
      serStr k ++ 58 :: serVal v ++ 44 :: serObj (JObj.cons k2 v2 tl) := by
  simp [serObj]

theorem serVal_head (v : JVal) :
    ∃ c t, serVal v = c :: t ∧ c ≠ 93 ∧ c ≠ 125 := by
  cases v with
  | s str => exact ⟨34, escapeChars str ++ [34], serVal_s_eq str, by omega, by omega⟩
  | n i =>
    obtain ⟨c, t, hct, hc⟩ := serInt_head i
    exact ⟨c, t, by rw [serVal_n_eq, hct], by omega, by omega⟩
  | b bv =>
    cases bv with
    | true => exact ⟨116, [114, 117, 101], by simp [serVal], by omega, by omega⟩
    | false => exact ⟨102, [97, 108, 115, 101], by simp [serVal], by omega, by omega⟩
  | null => exact ⟨110, [117, 108, 108], by simp [serVal], by omega, by omega⟩
  | arr es => exact ⟨91, serArr es ++ [93], by simp [serVal], by omega, by omega⟩
  | obj ms => exact ⟨123, serObj ms ++ [125], by simp [serVal], by omega, by omega⟩

theorem serArr_cons_head (v2 : JVal) (tl : JArr) :
    ∃ c2 t2, serArr (JArr.cons v2 tl) = c2 :: t2 ∧ c2 ≠ 93 := by
  obtain ⟨c0, t0, h0, h93, _⟩ := serVal_head v2
  cases tl with
  | nil => exact ⟨c0, t0, by rw [serArr_cons_nil_eq, h0], h93⟩
  | cons v3 tl3 =>
    refine ⟨c0, t0 ++ 44 :: serArr (JArr.cons v3 tl3), ?_, h93⟩
    rw [serArr_cons_cons_eq, h0]
    rfl

theorem serObj_cons_head (k : List Nat) (v2 : JVal) (tl : JObj) :
    ∃ t2, serObj (JObj.cons k v2 tl) = 34 :: t2 := by
  cases tl with
  | nil =>
    refine ⟨(escapeChars k ++ [34]) ++ 58 :: serVal v2, ?_⟩
    rw [serObj_cons_nil_eq, serStr]
    rfl
  | cons k3 v3 tl3 =>
    refine ⟨(escapeChars k ++ [34]) ++ (58 :: serVal v2 ++
      44 :: serObj (JObj.cons k3 v3 tl3)), ?_⟩
    rw [serObj_cons_cons_eq, serStr]
    simp

theorem head_notDigit (c : Nat) (hc : isDigitChar c = false) (l : List Nat) :
    ∀ y, (c :: l).head? = some y → isDigitChar y = false := by
  intro y hy
  simp at hy
  rw [← hy]
  exact hc

theorem head_notDigit_nil :
    ∀ y : Nat, ([] : List Nat).head? = some y → isDigitChar y = false := by
  intro y hy
  simp at hy

mutual
theorem parseVal_serVal (v : JVal) (rest : List Nat)
    (hrest : ∀ y, rest.head? = some y → isDigitChar y = false) :
    ∀ fuel, (serVal v).length ≤ fuel →
      parseVal fuel (serVal v ++ rest) = some (v, rest) := by
  match v with
  | .s str =>
    intro fuel hfuel
    rw [serVal_s_eq] at hfuel ⊢
    obtain ⟨f, rfl⟩ : ∃ f, fuel = f + 1 := ⟨fuel - 1, by simp at hfuel; omega⟩
    have harr : (34 :: (escapeChars str ++ [34])) ++ rest =
        34 :: (escapeChars str ++ 34 :: rest) := by simp
    rw [harr]
    simp [parseVal, parseJStr_escape str rest]
  | .n i =>
    intro fuel hfuel
    rw [serVal_n_eq] at hfuel ⊢
    obtain ⟨c, t, hct, hc⟩ := serInt_head i
    obtain ⟨f, rfl⟩ : ∃ f, fuel = f + 1 :=
      ⟨fuel - 1, by rw [hct] at hfuel; simp at hfuel; omega⟩
    rw [hct, List.cons_append]
    have h1 : ¬ c = 34 := by omega
    have h2 : ¬ c = 123 := by omega
    have h3 : ¬ c = 91 := by omega
    have h4 : ¬ c = 116 := by omega
    have h5 : ¬ c = 102 := by omega
    have h6 : ¬ c = 110 := by omega
    have h7 : c = 45 ∨ isDigitChar c = true := by
      rcases hc with h | h
      · exact Or.inl h
      · right
        simp [isDigitChar]
        omega
    simp only [parseVal, if_neg h1, if_neg h2, if_neg h3, if_neg h4, if_neg h5,
      if_neg h6, if_pos h7]
    rw [show c :: (t ++ rest) = (c :: t) ++ rest from rfl, ← hct,
      parseNum_serInt i rest hrest]
    rfl
  | .b true =>
    intro fuel hfuel
    have hser : serVal (JVal.b true) = [116, 114, 117, 101] := by simp [serVal]
    rw [hser] at hfuel ⊢
    obtain ⟨f, rfl⟩ : ∃ f, fuel = f + 1 := ⟨fuel - 1, by simp at hfuel; omega⟩
    simp [parseVal]
  | .b false =>
    intro fuel hfuel
    have hser : serVal (JVal.b false) = [102, 97, 108, 115, 101] := by simp [serVal]
    rw [hser] at hfuel ⊢
    obtain ⟨f, rfl⟩ : ∃ f, fuel = f + 1 := ⟨fuel - 1, by simp at hfuel; omega⟩
    simp [parseVal]
  | .null =>
    intro fuel hfuel
    have hser : serVal JVal.null = [110, 117, 108, 108] := by simp [serVal]
    rw [hser] at hfuel ⊢
    obtain ⟨f, rfl⟩ : ∃ f, fuel = f + 1 := ⟨fuel - 1, by simp at hfuel; omega⟩
    simp [parseVal]
  | .arr es =>
    intro fuel hfuel
    rw [serVal_arr_eq] at hfuel ⊢
    obtain ⟨f, rfl⟩ : ∃ f, fuel = f + 1 := ⟨fuel - 1, by simp at hfuel; omega⟩
    have harr : (91 :: serArr es ++ [93]) ++ rest =
        91 :: (serArr es ++ 93 :: rest) := by simp
    rw [harr]
    match es with
    | .nil =>
      have h0 : serArr JArr.nil = [] := by simp [serArr]
      rw [h0, List.nil_append]
      simp [parseVal]
    | .cons v2 tl =>
      obtain ⟨c2, t2, hct2, h93⟩ := serArr_cons_head v2 tl
      rw [hct2, List.cons_append]
      simp only [parseVal, if_true]
      rw [if_neg h93]
      rw [← List.cons_append, ← hct2,
        parseElems_serArr (JArr.cons v2 tl) (by simp) rest f
          (by simp only [List.length_append, List.length_cons] at hfuel; omega)]
      rfl
  | .obj ms =>
    intro fuel hfuel
    rw [serVal_obj_eq] at hfuel ⊢
    obtain ⟨f, rfl⟩ : ∃ f, fuel = f + 1 := ⟨fuel - 1, by simp at hfuel; omega⟩
    have harr : (123 :: serObj ms ++ [125]) ++ rest =
        123 :: (serObj ms ++ 125 :: rest) := by simp
    rw [harr]
    match ms with
    | .nil =>
      have h0 : serObj JObj.nil = [] := by simp [serObj]
      rw [h0, List.nil_append]
      simp [parseVal]
    | .cons k3 v3 tl3 =>
      obtain ⟨t2, hct2⟩ := serObj_cons_head k3 v3 tl3
      rw [hct2, List.cons_append]
      simp only [parseVal, if_true]
      rw [if_neg (by omega : ¬ (34 : Nat) = 125)]
      rw [← List.cons_append, ← hct2,
        parseMembers_serObj (JObj.cons k3 v3 tl3) (by simp) rest f
          (by simp only [List.length_append, List.length_cons] at hfuel; omega)]
      rfl
theorem parseElems_serArr (vs : JArr) (hvs : vs ≠ JArr.nil) (rest : List Nat) :
    ∀ fuel, (serArr vs).length + 1 ≤ fuel →
      parseElems fuel (serArr vs ++ 93 :: rest) = some (vs, rest) := by
  match vs with
  | .nil => exact absurd rfl hvs
  | .cons v tl =>
    intro fuel hfuel
    obtain ⟨f, rfl⟩ : ∃ f, fuel = f + 1 := ⟨fuel - 1, by omega⟩
    match tl with
    | .nil =>
      rw [serArr_cons_nil_eq] at hfuel ⊢
      have hpv := parseVal_serVal v (93 :: rest) (head_notDigit 93 (by decide) rest) f
        (by omega)
      simp [parseElems, hpv]
    | .cons v3 tl3 =>
      rw [serArr_cons_cons_eq] at hfuel ⊢
      have harr : (serVal v ++ 44 :: serArr (JArr.cons v3 tl3)) ++ 93 :: rest =
          serVal v ++ 44 :: (serArr (JArr.cons v3 tl3) ++ 93 :: rest) := by simp
      rw [harr]
      have hpv := parseVal_serVal v (44 :: (serArr (JArr.cons v3 tl3) ++ 93 :: rest))
        (head_notDigit 44 (by decide) _) f
        (by simp only [List.length_append, List.length_cons] at hfuel; omega)
      have hpe := parseElems_serArr (JArr.cons v3 tl3) (by simp) rest f
        (by simp only [List.length_append, List.length_cons] at hfuel; omega)
      simp [parseElems, hpv, hpe]
theorem parseMembers_serObj (ms : JObj) (hms : ms ≠ JObj.nil) (rest : List Nat) :
    ∀ fuel, (serObj ms).length + 1 ≤ fuel →
      parseMembers fuel (serObj ms ++ 125 :: rest) = some (ms, rest) := by
  match ms with
  | .nil => exact absurd rfl hms
  | .cons k v tl =>
    intro fuel hfuel
    obtain ⟨f, rfl⟩ : ∃ f, fuel = f + 1 := ⟨fuel - 1, by omega⟩
    match tl with
    | .nil =>
      rw [serObj_cons_nil_eq, serStr] at hfuel ⊢
      have harr : ((34 :: escapeChars k ++ [34]) ++ 58 :: serVal v) ++ 125 :: rest =
          34 :: (escapeChars k ++ 34 :: (58 :: (serVal v ++ 125 :: rest))) := by simp
      rw [harr]
      have hk := parseJStr_escape k (58 :: (serVal v ++ 125 :: rest))
      have hpv := parseVal_serVal v (125 :: rest) (head_notDigit 125 (by decide) rest) f
        (by simp only [List.length_append, List.length_cons] at hfuel; omega)
      simp [parseMembers, hk, hpv]
    | .cons k3 v3 tl3 =>
      rw [serObj_cons_cons_eq, serStr] at hfuel ⊢
      have harr : ((34 :: escapeChars k ++ [34]) ++ 58 :: serVal v ++
          44 :: serObj (JObj.cons k3 v3 tl3)) ++ 125 :: rest =
          34 :: (escapeChars k ++ 34 :: (58 :: (serVal v ++
            44 :: (serObj (JObj.cons k3 v3 tl3) ++ 125 :: rest)))) := by simp
      rw [harr]
      have hk := parseJStr_escape k
        (58 :: (serVal v ++ 44 :: (serObj (JObj.cons k3 v3 tl3) ++ 125 :: rest)))
      have hpv := parseVal_serVal v
        (44 :: (serObj (JObj.cons k3 v3 tl3) ++ 125 :: rest))
        (head_notDigit 44 (by decide) _) f
        (by simp only [List.length_append, List.length_cons] at hfuel; omega)
      have hpm := parseMembers_serObj (JObj.cons k3 v3 tl3) (by simp) rest f
        (by simp only [List.length_append, List.length_cons] at hfuel; omega)
      simp [parseMembers, hk, hpv, hpm]
end

theorem escapeChar_chars (c : Nat) (hc : c < 1114112) :
    ∀ x ∈ escapeChar c, x < 1114112 := by
  intro x hx
  rw [escapeChar] at hx
  split_ifs at hx with h34 h92 h32 h8 h9 h10 h12 h13
  all_goals simp at hx
  all_goals try omega
  all_goals
    have b1 : hexDigitChar (c / 16) ≤ 102 := by
      rw [hexDigitChar]
      split_ifs <;> omega
  all_goals
    have b2 : hexDigitChar (c % 16) ≤ 102 := by
      rw [hexDigitChar]
      split_ifs <;> omega
  all_goals omega

theorem escapeChars_chars (s : List Nat) (hs : ∀ c ∈ s, c < 1114112) :
    ∀ x ∈ escapeChars s, x < 1114112 := by
  induction s with
  | nil => simp [escapeChars]
  | cons c s ih =>
    intro x hx
    rw [escapeChars] at hx
    rcases List.mem_append.1 hx with h | h
    · exact escapeChar_chars c (hs c (by simp)) x h
    · exact ih (fun z hz => hs z (by simp [hz])) x h

theorem serStr_chars (k : List Nat) (hk : ∀ c ∈ k, c < 1114112) :
    ∀ x ∈ serStr k, x < 1114112 := by
  intro x hx
  rw [serStr] at hx
  simp at hx
  rcases hx with h | h | h
  · omega
  · exact escapeChars_chars k hk x h
  · omega

theorem serInt_chars (i : Int) : ∀ x ∈ serInt i, x < 1114112 := by
  intro x hx
  rw [serInt] at hx
  have hd := natToDigits_digits i.natAbs
  split_ifs at hx
  · simp at hx
    rcases hx with h | h
    · omega
    · have := hd x h
      omega
  · have := hd x hx
    omega

mutual
theorem serVal_chars (v : JVal) (h : wfVal v = true) :
    ∀ x ∈ serVal v, x < 1114112 := by
  match v with
  | .s str =>
    intro x hx
    rw [serVal_s_eq] at hx
    simp [wfVal, List.all_eq_true] at h
    simp at hx
    rcases hx with h1 | h1 | h1
    · omega
    · exact escapeChars_chars str (fun c hc => by have := h c hc; omega) x h1
    · omega
  | .n i =>
    intro x hx
    rw [serVal_n_eq] at hx
    exact serInt_chars i x hx
  | .b true =>
    intro x hx
    rw [show serVal (JVal.b true) = [116, 114, 117, 101] by simp [serVal]] at hx
    simp at hx
    omega
  | .b false =>
    intro x hx
    rw [show serVal (JVal.b false) = [102, 97, 108, 115, 101] by simp [serVal]] at hx
    simp at hx
    omega
  | .null =>
    intro x hx
    rw [show serVal JVal.null = [110, 117, 108, 108] by simp [serVal]] at hx
    simp at hx
    omega
  | .arr es =>
    intro x hx
    rw [serVal_arr_eq] at hx
    simp [wfVal] at h
    simp at hx
    rcases hx with h1 | h1 | h1
    · omega
    · exact serArr_chars es h x h1
    · omega
  | .obj ms =>
    intro x hx
    rw [serVal_obj_eq] at hx
    simp [wfVal] at h
    simp at hx
    rcases hx with h1 | h1 | h1
    · omega
    · exact serObj_chars ms h x h1
    · omega
theorem serArr_chars (vs : JArr) (h : wfArr vs = true) :
    ∀ x ∈ serArr vs, x < 1114112 := by
  match vs with
  | .nil =>
    intro x hx
    rw [show serArr JArr.nil = [] by simp [serArr]] at hx
    simp at hx
  | .cons v tl =>
    have hcomp : wfVal v = true ∧ wfArr tl = true := by
      rw [show wfArr (JArr.cons v tl) = (wfVal v && wfArr tl) by simp [wfArr]] at h
      exact Bool.and_eq_true_iff.1 h
    match tl with
    | .nil =>
      intro x hx
      rw [serArr_cons_nil_eq] at hx
      exact serVal_chars v hcomp.1 x hx
    | .cons v3 tl3 =>
      intro x hx
      rw [serArr_cons_cons_eq] at hx
      simp at hx
      rcases hx with h1 | h1 | h1
      · exact serVal_chars v hcomp.1 x h1
      · omega
      · exact serArr_chars (JArr.cons v3 tl3) hcomp.2 x h1
theorem serObj_chars (ms : JObj) (h : wfObj ms = true) :
    ∀ x ∈ serObj ms, x < 1114112 := by
  match ms with
  | .nil =>
    intro x hx
    rw [show serObj JObj.nil = [] by simp [serObj]] at hx
    simp at hx
  | .cons k v tl =>
    have hcomp : (∀ c ∈ k, c < 1114112) ∧ wfVal v = true ∧ wfObj tl = true := by
      rw [show wfObj (JObj.cons k v tl) =
        (k.all (· < 1114112) && wfVal v && wfObj tl) by simp [wfObj]] at h
      have h3 := Bool.and_eq_true_iff.1 h
      have h4 := Bool.and_eq_true_iff.1 h3.1
      refine ⟨?_, h4.2, h3.2⟩
      intro c hc
      have := List.all_eq_true.1 h4.1 c hc
      simpa using this
    match tl with
    | .nil =>
      intro x hx
      rw [serObj_cons_nil_eq] at hx
      simp at hx
      rcases hx with h1 | h1 | h1
      · exact serStr_chars k hcomp.1 x h1
      · omega
      · exact serVal_chars v hcomp.2.1 x h1
    | .cons k3 v3 tl3 =>
      intro x hx
      rw [serObj_cons_cons_eq] at hx
      simp at hx
      rcases hx with h1 | h1 | h1 | h1 | h1
      · exact serStr_chars k hcomp.1 x h1
      · omega
      · exact serVal_chars v hcomp.2.1 x h1
      · omega
      · exact serObj_chars (JObj.cons k3 v3 tl3) hcomp.2.2 x h1
end

/-- C4: for every payload, alert string or alert object, badge, sound
and custom mapping, made of unicode strings and with serialized form
at most 256 bytes, parsing the JSON bytes produced by `Payload.json`
yields exactly the logical map built by `Payload.dict`: the aps
sub-object with its present fields merged with the custom top-level
keys; parse after serialize is the identity on the dictionary form. -/
theorem c4_payload_json_roundtrip (d : PayloadData)
    (hwf : wfVal (payloadDict d) = true)
    (hsize : (payloadJson d).length ≤ 256) :
    jsonParse (payloadJson d) = some (payloadDict d) := by
  unfold jsonParse payloadJson payloadJsonChars
  rw [utf8Decode_encode _ (serVal_chars _ hwf)]
  have hpv := parseVal_serVal (payloadDict d) [] head_notDigit_nil
    ((serVal (payloadDict d)).length + 1) (by omega)
  rw [List.append_nil] at hpv
  simp [hpv]

theorem c4_payload_json_roundtrip_witness :
    wfVal (payloadDict c7Payload) = true ∧
    (payloadJson c7Payload).length ≤ 256 ∧
    jsonParse (payloadJson c7Payload) = some (payloadDict c7Payload) :=
  ⟨by decide, by decide, c4_payload_json_roundtrip c7Payload (by decide) (by decide)⟩

theorem parseBuffF_stop (fuel : Nat) (buff : List Nat) (h : ¬ 6 < buff.length) :
    parseBuffF fuel buff = ([], buff) := by
  cases fuel with
  | zero => simp [parseBuffF]
  | succ f => simp [parseBuffF, h]

theorem parseBuffF_eq_of_le (fuel1 fuel2 : Nat) (buff : List Nat)
    (h1 : buff.length ≤ fuel1) (h2 : buff.length ≤ fuel2) :
    parseBuffF fuel1 buff = parseBuffF fuel2 buff := by
  match fuel1, fuel2 with
  | 0, f2 =>
    rw [parseBuffF_stop 0 buff (by omega), parseBuffF_stop f2 buff (by omega)]
  | f1 + 1, 0 =>
    rw [parseBuffF_stop (f1 + 1) buff (by omega), parseBuffF_stop 0 buff (by omega)]
  | f1 + 1, f2 + 1 =>
    by_cases h6 : 6 < buff.length
    · by_cases h7 : 6 + unpacked_ushort_big_endian ((buff.drop 4).take 2) ≤ buff.length
      · have ih := parseBuffF_eq_of_le f1 f2
          (buff.drop (6 + unpacked_ushort_big_endian ((buff.drop 4).take 2)))
          (by simp; omega) (by simp; omega)
        simp only [parseBuffF, if_pos h6, if_pos h7]
        rw [ih]
      · simp only [parseBuffF, if_pos h6, if_neg h7]
    · rw [parseBuffF_stop _ _ h6, parseBuffF_stop _ _ h6]

theorem parseBuff_eq_parseBuffF (fuel : Nat) (buff : List Nat)
    (h : buff.length ≤ fuel) : parseBuff buff = parseBuffF fuel buff := by
  rw [parseBuff]
  exact parseBuffF_eq_of_le buff.length fuel buff le_rfl h

theorem encodeRecord_length (r : FeedbackRecord) :
    (encodeRecord r).length = 6 + r.token.length := by
  simp [encodeRecord, packed_uint_big_endian, packed_ushort_big_endian]
  omega

theorem encodeRecords_cons (r : FeedbackRecord) (rs : List FeedbackRecord) :
    encodeRecords (r :: rs) = encodeRecord r ++ encodeRecords rs := by
  simp [encodeRecords]

theorem encodeRecord_slices (r : FeedbackRecord) (hr : wfRecord r) (tail : List Nat) :
    ((encodeRecord r ++ tail).drop 4).take 2 = packed_ushort_big_endian r.token.length ∧
    (encodeRecord r ++ tail).take 4 = packed_uint_big_endian r.failTime ∧
    ((encodeRecord r ++ tail).drop 6).take r.token.length = r.token ∧
    (encodeRecord r ++ tail).drop (6 + r.token.length) = tail := by
  have hA : encodeRecord r ++ tail =
      packed_uint_big_endian r.failTime ++
        (packed_ushort_big_endian r.token.length ++ (r.token ++ tail)) := by
    simp [encodeRecord]
  have hB : encodeRecord r ++ tail =
      (packed_uint_big_endian r.failTime ++ packed_ushort_big_endian r.token.length) ++
        (r.token ++ tail) := by
    simp [encodeRecord]
  refine ⟨?_, ?_, ?_, ?_⟩
  · rw [hA, show (4 : Nat) = (packed_uint_big_endian r.failTime).length from rfl,
      List.drop_left, show (2 : Nat) = (packed_ushort_big_endian r.token.length).length
        from rfl, List.take_left]
  · rw [hA, show (4 : Nat) = (packed_uint_big_endian r.failTime).length from rfl,
      List.take_left]
  · rw [hB, show (6 : Nat) = (packed_uint_big_endian r.failTime ++
        packed_ushort_big_endian r.token.length).length from rfl,
      List.drop_left, List.take_left]
  · rw [show 6 + r.token.length = (encodeRecord r).length from (encodeRecord_length r).symm,
      List.drop_left]

theorem parseBuff_encodeRecords (rs : List FeedbackRecord)
    (hwf : ∀ r ∈ rs, wfRecord r) (p : List Nat)
    (hp : p.length ≤ 6 ∨
      p.length < 6 + unpacked_ushort_big_endian ((p.drop 4).take 2)) :
    parseBuff (encodeRecords rs ++ p) = (rs.map recordPair, p) := by
  match rs with
  | [] =>
    simp only [encodeRecords, List.nil_append, List.map_nil]
    rw [parseBuff]
    by_cases h6 : 6 < p.length
    · obtain ⟨L, hL⟩ : ∃ L, p.length = L + 1 := ⟨p.length - 1, by omega⟩
      rw [hL]
      simp only [parseBuffF, if_pos (show 6 < p.length by omega)]
      rw [if_neg (by omega : ¬ 6 + unpacked_ushort_big_endian ((p.drop 4).take 2) ≤
        p.length)]
    · rw [parseBuffF_stop _ _ h6]
  | r :: rs2 =>
    have hr := hwf r (by simp)
    have htl1 : 1 ≤ r.token.length := by
      have := List.length_pos.2 hr.2.2.1
      omega
    obtain ⟨hs1, hs2, hs3, hs4⟩ := encodeRecord_slices r hr (encodeRecords rs2 ++ p)
    have hassoc : encodeRecords (r :: rs2) ++ p =
        encodeRecord r ++ (encodeRecords rs2 ++ p) := by
      simp [encodeRecords]
    rw [hassoc]
    have hlen : (encodeRecord r ++ (encodeRecords rs2 ++ p)).length =
        (6 + r.token.length) + (encodeRecords rs2 ++ p).length := by
      rw [List.length_append, encodeRecord_length]
    rw [parseBuff]
    obtain ⟨L, hLe⟩ : ∃ L, (encodeRecord r ++ (encodeRecords rs2 ++ p)).length = L + 1 :=
      ⟨(encodeRecord r ++ (encodeRecords rs2 ++ p)).length - 1, by omega⟩
    rw [hLe]
    simp only [parseBuffF]
    rw [if_pos (show 6 < (encodeRecord r ++ (encodeRecords rs2 ++ p)).length by omega)]
    rw [hs1, unpacked_packed_ushort r.token.length hr.2.1]
    rw [if_pos (show 6 + r.token.length ≤
      (encodeRecord r ++ (encodeRecords rs2 ++ p)).length by omega)]
    rw [hs2, unpacked_packed_uint r.failTime hr.1, hs3, hs4]
    have hfuel : (encodeRecords rs2 ++ p).length ≤ L := by omega
    rw [← parseBuff_eq_parseBuffF L _ hfuel]
    rw [parseBuff_encodeRecords rs2 (fun x hx => hwf x (by simp [hx])) p hp]
    simp [recordPair]

theorem encodeRecords_split (rs : List FeedbackRecord)
    (hwf : ∀ r ∈ rs, wfRecord r) (k : Nat) (hk : k ≤ (encodeRecords rs).length) :
    ∃ done rem m, rs = done ++ rem ∧ k = (encodeRecords done).length + m ∧
      (encodeRecords rs).take k = encodeRecords done ++ (encodeRecords rem).take m ∧
      (encodeRecords rs).drop k = (encodeRecords rem).drop m ∧
      (rem = [] → m = 0) ∧
      (∀ r rem2, rem = r :: rem2 → m < (encodeRecord r).length) := by
  match rs with
  | [] =>
    have hk0 : k = 0 := by
      simp [encodeRecords] at hk
      omega
    subst hk0
    exact ⟨[], [], 0, rfl, by simp [encodeRecords], by simp [encodeRecords],
      by simp [encodeRecords], fun _ => rfl, fun r rem2 h => by simp at h⟩
  | r :: rs2 =>
    by_cases hlt : k < (encodeRecord r).length
    · refine ⟨[], r :: rs2, k, rfl, by simp [encodeRecords], by simp [encodeRecords],
        by simp [encodeRecords], fun h => by simp at h, ?_⟩
      intro r3 rem2 h
      have : r3 = r := by
        injection h with h1 h2
        exact h1.symm
      rw [this]
      exact hlt
    · have hk2 : k - (encodeRecord r).length ≤ (encodeRecords rs2).length := by
        have hlen : (encodeRecords (r :: rs2)).length =
            (encodeRecord r).length + (encodeRecords rs2).length := by
          rw [encodeRecords_cons, List.length_append]
        omega
      obtain ⟨done, rem, m, h1, h2, h3, h4, h5, h6⟩ :=
        encodeRecords_split rs2 (fun x hx => hwf x (by simp [hx]))
          (k - (encodeRecord r).length) hk2
      refine ⟨r :: done, rem, m, by simp [h1], ?_, ?_, ?_, h5, h6⟩
      · rw [encodeRecords_cons, List.length_append]
        omega
      · rw [encodeRecords_cons, List.take_append_eq_append_take,
          List.take_of_length_le (by omega), h3, encodeRecords_cons,
          List.append_assoc]
      · rw [encodeRecords_cons, List.drop_append_eq_append_drop,
          List.drop_eq_nil_of_le (by omega), List.nil_append, h4]

theorem take_incomplete (r : FeedbackRecord) (rem2 : List FeedbackRecord)
    (hr : wfRecord r) (m : Nat) (hm : m < (encodeRecord r).length) :
    ((encodeRecords (r :: rem2)).take m).length ≤ 6 ∨
    ((encodeRecords (r :: rem2)).take m).length <
      6 + unpacked_ushort_big_endian
        ((((encodeRecords (r :: rem2)).take m).drop 4).take 2) := by
  by_cases h6 : m ≤ 6
  · left
    have := List.length_take m (encodeRecords (r :: rem2))
    omega
  · right
    have hp45 : (((encodeRecords (r :: rem2)).take m).drop 4).take 2 =
        ((encodeRecords (r :: rem2)).drop 4).take 2 := by
      rw [List.drop_take, List.take_take, Nat.min_eq_left (by omega)]
    rw [hp45, encodeRecords_cons,
      (encodeRecord_slices r hr (encodeRecords rem2)).1,
      unpacked_packed_ushort r.token.length hr.2.1]
    have h1 := List.length_take m (encodeRecords (r :: rem2))
    have h2 := encodeRecord_length r
    rw [encodeRecords_cons] at h1
    omega

theorem itemsLoop_good (cs : List (List Nat)) :
    ∀ (rs : List FeedbackRecord) (m : Nat),
      (∀ r ∈ rs, wfRecord r) →
      (∀ c ∈ cs, c ≠ []) →
      (rs = [] → m = 0) →
      (∀ r rs2, rs = r :: rs2 → m < (encodeRecord r).length) →
      cs.flatten = (encodeRecords rs).drop m →
      goodSplit ((encodeRecords rs).take m) cs = true →
      itemsLoop ((encodeRecords rs).take m) (cs ++ [[]]) = rs.map recordPair := by
  induction cs with
  | nil =>
    intro rs m hwf _ hnil hcons hflat _
    cases rs with
    | nil =>
      have hm := hnil rfl
      subst hm
      simp [encodeRecords, itemsLoop]
    | cons r rs2 =>
      exfalso
      have h1 := hcons r rs2 rfl
      have h2 : (encodeRecords (r :: rs2)).length ≤ m := by
        have := congrArg List.length hflat
        simp at this
        omega
      have h3 : (encodeRecords (r :: rs2)).length =
          (encodeRecord r).length + (encodeRecords rs2).length := by
        rw [encodeRecords_cons, List.length_append]
      omega
  | cons c cs ih =>
    intro rs m hwf hne hnil hcons hflat hgood
    rw [List.flatten_cons] at hflat
    have hmle : m ≤ (encodeRecords rs).length := by
      cases rs with
      | nil =>
        have := hnil rfl
        omega
      | cons r rs2 =>
        have h1 := hcons r rs2 rfl
        have h3 : (encodeRecords (r :: rs2)).length =
            (encodeRecord r).length + (encodeRecords rs2).length := by
          rw [encodeRecords_cons, List.length_append]
        omega
    have hklen : m + c.length ≤ (encodeRecords rs).length := by
      have := congrArg List.length hflat
      simp at this
      omega
    have hbuff : (encodeRecords rs).take m ++ c = (encodeRecords rs).take (m + c.length) := by
      rw [List.take_add]
      congr 1
      rw [← hflat, List.take_append_of_le_length le_rfl, List.take_length]
    obtain ⟨done, rem, m2, hsplit1, hsplit2, hsplit3, hsplit4, hsplit5, hsplit6⟩ :=
      encodeRecords_split rs hwf (m + c.length) hklen
    simp only [goodSplit] at hgood
    rw [hbuff] at hgood
    obtain ⟨h6, hgood2⟩ := Bool.and_eq_true_iff.1 hgood
    have h6' : 6 ≤ ((encodeRecords rs).take (m + c.length)).length :=
      of_decide_eq_true h6
    have hwfdone : ∀ r ∈ done, wfRecord r := fun r hr2 =>
      hwf r (by rw [hsplit1]; simp [hr2])
    have hwfrem : ∀ r ∈ rem, wfRecord r := fun r hr2 =>
      hwf r (by rw [hsplit1]; simp [hr2])
    have hinc : ((encodeRecords rem).take m2).length ≤ 6 ∨
        ((encodeRecords rem).take m2).length <
          6 + unpacked_ushort_big_endian
            ((((encodeRecords rem).take m2).drop 4).take 2) := by
      cases rem with
      | nil =>
        left
        have := hsplit5 rfl
        subst this
        simp [encodeRecords]
      | cons r rem2 =>
        exact take_incomplete r rem2 (hwfrem r (by simp)) m2 (hsplit6 r rem2 rfl)
    have hparse : parseBuff ((encodeRecords rs).take (m + c.length)) =
        (done.map recordPair, (encodeRecords rem).take m2) := by
      rw [hsplit3]
      exact parseBuff_encodeRecords done hwfdone _ hinc
    rw [show (c :: cs) ++ [[]] = c :: (cs ++ [[]]) from rfl]
    simp only [itemsLoop]
    rw [hbuff]
    have hnotempty : ((encodeRecords rs).take (m + c.length)).isEmpty = false := by
      have : (encodeRecords rs).take (m + c.length) ≠ [] := by
        intro h
        rw [h] at h6'
        simp at h6'
      simpa [List.isEmpty_iff] using this
    rw [if_neg (by simp [hnotempty] : ¬ ((encodeRecords rs).take (m + c.length)).isEmpty = true)]
    rw [if_neg (by omega : ¬ ((encodeRecords rs).take (m + c.length)).length < 6)]
    rw [hparse]
    have hflat2 : cs.flatten = (encodeRecords rem).drop m2 := by
      have h := congrArg (List.drop c.length) hflat
      rw [List.drop_left] at h
      rw [List.drop_drop] at h
      rw [hsplit4] at h
      exact h
    rw [hparse] at hgood2
    rw [ih rem m2 hwfrem (fun c2 hc2 => hne c2 (by simp [hc2])) hsplit5 hsplit6
      hflat2 hgood2]
    rw [hsplit1, List.map_append]

theorem takeWhile_all_ne_nil (cs : List (List Nat)) (h : ∀ c ∈ cs, c ≠ []) :
    cs.takeWhile (fun c => !c.isEmpty) = cs := by
  induction cs with
  | nil => simp
  | cons c cs ih =>
    have hc : (!c.isEmpty) = true := by
      have := h c (by simp)
      simp [List.isEmpty_iff]
      exact this
    rw [List.takeWhile_cons, hc]
    simp [ih (fun c2 hc2 => h c2 (by simp [hc2]))]

/-- Correctness of the buffer logic of `items` in isolation: for every
list of well-formed feedback records with nonempty tokens and every
split of their concatenated encoding into nonempty chunk reads under
which each read leaves at least 6 bytes in the accumulated buffer, the
loop yields exactly the records' (tokenHex, fail_time) pairs in stream
order, records split across chunk boundaries included.  This is the
behavior the spec intends; the program itself never reaches this loop
body, see `c3_items_type_error`. -/
theorem itemsRun_goodSplit (rs : List FeedbackRecord) (cs : List (List Nat))
    (hwf : ∀ r ∈ rs, wfRecord r)
    (hne : ∀ c ∈ cs, c ≠ [])
    (hstream : cs.flatten = encodeRecords rs)
    (hgood : goodSplit [] cs = true) :
    itemsRun cs = rs.map recordPair := by
  rw [itemsRun, chunksYield, takeWhile_all_ne_nil cs hne]
  have h := itemsLoop_good cs rs 0 hwf hne (fun _ => rfl)
    (fun r rs2 hr => by rw [encodeRecord_length]; omega)
    (by simpa using hstream) (by simpa using hgood)
  simpa using h

theorem itemsRun_goodSplit_example :
    (∀ r ∈ [(⟨10, [153]⟩ : FeedbackRecord)], wfRecord r) ∧
    goodSplit [] [[0, 0, 0, 10, 0, 1, 153]] = true ∧
    List.flatten [[0, 0, 0, 10, 0, 1, 153]] =
      encodeRecords [(⟨10, [153]⟩ : FeedbackRecord)] ∧
    itemsRun [[0, 0, 0, 10, 0, 1, 153]] =
      List.map recordPair [(⟨10, [153]⟩ : FeedbackRecord)] := by
  refine ⟨by decide, by decide, by decide, ?_⟩
  exact itemsRun_goodSplit [⟨10, [153]⟩] [[0, 0, 0, 10, 0, 1, 153]]
    (by decide) (by decide) (by decide) (by decide)

/-- Limit of the buffer logic in isolation, matching the termination
note of the spec's feedback-client section: the stream of one
well-formed record (fail time 10, token byte 0x99) split into a 3-byte
read followed by a 4-byte read would be dropped entirely, because the
loop stops when a read leaves fewer than 6 bytes in the buffer. -/
theorem itemsRun_short_read_drops :
    encodeRecords [(⟨10, [153]⟩ : FeedbackRecord)] = [0, 0, 0, 10, 0, 1, 153] ∧
    List.flatten [[0, 0, 0], [10, 0, 1, 153]] =
      encodeRecords [(⟨10, [153]⟩ : FeedbackRecord)] ∧
    wfRecord (⟨10, [153]⟩ : FeedbackRecord) ∧
    itemsRun [[0, 0, 0], [10, 0, 1, 153]] = [] ∧
    itemsRun [[0, 0, 0], [10, 0, 1, 153]] ≠
      List.map recordPair [(⟨10, [153]⟩ : FeedbackRecord)] := by
  refine ⟨by decide, by decide, by decide, by decide, by decide⟩

/-- C3 (code bug): the claim describes the feedback parsing the spec
intends, but the code cannot perform it on any input:
`FeedbackConnection._chunks` calls `self.read(BUF_SIZE)` while
`APNsConnection.read` has signature `read(self, n, callback)`, so the
first chunk read of `items` raises `TypeError` before any data
arrives, and the generator never yields a pair — for every chunk
stream, in particular for the single-record stream with fail time 10
and token byte 0x99, where the claim requires the pair ("99", 10). -/
theorem c3_items_type_error :
    itemsResult [[0, 0, 0, 10, 0, 1, 153]] = Except.error PyError.typeErr ∧
    ∀ cs : List (List Nat), itemsResult cs = Except.error PyError.typeErr := by
  constructor
  · rfl
  · intro cs
    rfl
